import Mathlib

/-!
# PhantomJS cookie jar: a shallow embedding of `src/cookiejar.cpp`

The file embeds the `CookieJar` class of PhantomJS (a `QNetworkCookieJar`
that persists its cookies in a `QSettings` entry) and proves or refutes
properties of it.

Layout of the development:

* the Qt value types the code manipulates (`QNetworkCookie`, `QUrl`,
  `QVariant`, `QVariantMap`, `QDataStream`);
* the two serialisation operators of the source (`operator<<`, `operator>>`);
* the base class `QNetworkCookieJar`, whose code is not part of
  `cookiejar.cpp` and is modelled from the specification;
* the methods of `CookieJar`, one definition per method, in source order;
* lemmas and the theorems about them.

Conventions.  Strings (`QString`, `QByteArray`) are Lean `String`s.  A
`QDateTime` is an `Option Int`: `none` is the invalid (null) date, `some t` a
valid instant, `t` seconds after the epoch.  The wall clock read by `QDateTime::currentDateTime()` is
an explicit argument `now`.  A method that mutates the jar returns the new
jar; a method that also returns a value returns a pair.
-/

namespace PhantomJS

/-! ## Qt value types -/

/-- Test `QString::isEmpty` / `QByteArray::isEmpty`. -/
def qIsEmpty (s : String) : Bool := s.data.isEmpty

/-- Test `QString::startsWith(QChar)`. -/
def qStartsWith (s : String) (c : Char) : Bool := s.data.head? == some c

/-- `QString::replace(" GMT", "")` on the characters of a string: every
occurrence of the four characters is removed, scanning left to right. -/
def qRemoveGMT : List Char → List Char
  | [] => []
  | c :: rest =>
    if c = ' ' ∧ rest.take 3 = ['G', 'M', 'T'] then
      match rest with
      | _ :: _ :: _ :: rest3 => qRemoveGMT rest3
      | _ => []
    else c :: qRemoveGMT rest

/-- Comparison `QDateTime::operator<` against a valid instant.  The source
only evaluates it on valid dates (it is guarded by `!isSessionCookie()`); the
invalid date is placed before every valid one. -/
def qDateTimeLt (d : Option Int) (now : Int) : Bool :=
  match d with
  | some t => decide (t < now)
  | none => true

/-- `QDateTime::addDays`: shifts a valid instant by whole days; the invalid
date stays invalid. -/
def qDateTimeAddDays (d : Option Int) (ndays : Int) : Option Int :=
  d.map (fun t => t + ndays * 86400)

/-- Modelled from the spec: the type `QNetworkCookie` (declared in Qt, not in
`cookiejar.cpp`), with the fields of the spec's data model: domain, path, name,
value, secure, httpOnly and an optional expiration instant.  The default value
is the default-constructed `QNetworkCookie()`. -/
structure QNetworkCookie where
  name : String := ""
  value : String := ""
  domain : String := ""
  path : String := ""
  secure : Bool := false
  httpOnly : Bool := false
  expirationDate : Option Int := none
deriving DecidableEq, Repr, Inhabited

namespace QNetworkCookie

/-- `QNetworkCookie::isSessionCookie`: the cookie has no valid expiration
date. -/
def isSessionCookie (c : QNetworkCookie) : Bool := c.expirationDate.isNone

/-- `QNetworkCookie::setExpirationDate`. -/
def setExpirationDate (c : QNetworkCookie) (d : Option Int) : QNetworkCookie :=
  { c with expirationDate := d }

/-- Identity key of a cookie: (name, domain, path). -/
def key (c : QNetworkCookie) : String × String × String := (c.name, c.domain, c.path)

end QNetworkCookie

/-- Modelled from the spec: the type `QUrl`, reduced to the three components
the matcher looks at (scheme, host, path). -/
structure QUrl where
  scheme : String := ""
  host : String := ""
  path : String := ""
deriving DecidableEq, Repr, Inhabited

namespace QUrl

/-- Splits a character list at the first occurrence of `://`. -/
def splitScheme : List Char → Option (List Char × List Char)
  | [] => none
  | c :: rest =>
    if c = ':' ∧ rest.take 2 = ['/', '/'] then some ([], rest.drop 2)
    else match splitScheme rest with
      | some (s, r) => some (c :: s, r)
      | none => none

/-- Modelled from the spec: the conversion `QUrl(const QString &)`, which is
Qt code.  The spec gives no url grammar; it writes its urls in the plain shape
`scheme://host/path` (`http://example.com/`), and the model covers texts of
that shape only: the scheme is what precedes the first `://`, the host runs up
to the next `/`, the path is the rest (it starts with `/`, or is empty); a
string without `://` has no scheme and no host and is all path.  Nothing else
of Qt's conversion is modelled: no port, user info, query or fragment is split
off and the host is not normalised, so the model stands for Qt on plain texts
only; the theorems that quantify over all texts do not depend on how a text
is split. -/
def ofString (s : String) : QUrl :=
  match splitScheme s.data with
  | some (sch, rest) =>
    { scheme := String.mk sch
      host := String.mk (rest.takeWhile (fun c => c != '/'))
      path := String.mk (rest.dropWhile (fun c => c != '/')) }
  | none => { scheme := "", host := "", path := s }

/-- The url scheme is a secure one. -/
def isSecure (u : QUrl) : Bool := u.scheme == "https"

end QUrl

/-- Modelled from the spec: the type `QVariant`, restricted to the payloads
the cookie records carry: nothing (the invalid variant that `QVariantMap`
returns for an absent key), a boolean, or a string. -/
inductive QVariant where
  | invalid : QVariant
  | bool (b : Bool) : QVariant
  | string (s : String) : QVariant
deriving DecidableEq, Repr, Inhabited

namespace QVariant

/-- `QVariant::isNull`. -/
def isNull : QVariant → Bool
  | invalid => true
  | _ => false

/-- `QVariant::toString` (also used for `toByteArray`). -/
def toString : QVariant → String
  | invalid => ""
  | bool b => if b then "true" else "false"
  | string s => s

/-- `QVariant::toBool`: a string is true unless it is empty, `0` or
`false`. -/
def toBool : QVariant → Bool
  | invalid => false
  | bool b => b
  | string s => !(s == "" || s == "0" || String.mk (s.data.map Char.toLower) == "false")

end QVariant

/-- Modelled from the spec: the type `QVariantMap`, a record of named
variants, kept as an association list. -/
abbrev QVariantMap := List (String × QVariant)

namespace QVariantMap

/-- Const `QVariantMap::operator[]`: the value stored under the key, or the
invalid variant when the key is absent. -/
def get (m : QVariantMap) (k : String) : QVariant :=
  match m.find? (fun kv => kv.1 == k) with
  | some kv => kv.2
  | none => QVariant.invalid

/-- Whether the record has the key. -/
def hasKey (m : QVariantMap) (k : String) : Bool := m.any (fun kv => kv.1 == k)

/-- Assignment `m[k] = v`: replaces the value under an existing key, adds the
key otherwise. -/
def set (m : QVariantMap) (k : String) (v : QVariant) : QVariantMap :=
  if m.any (fun kv => kv.1 == k) then
    m.map (fun kv => if kv.1 == k then (k, v) else kv)
  else m ++ [(k, v)]

end QVariantMap

/-- Functions of Qt that the cookie jar calls and whose code is not in
`cookiejar.cpp`; the development is parametric in them. -/
structure QtLib where
  /-- `QNetworkCookie::toRawForm`: the cookie's Set-Cookie text. -/
  toRawForm : QNetworkCookie → String
  /-- `QNetworkCookie::parseCookies`: the cookies a Set-Cookie text holds. -/
  parseCookies : String → List QNetworkCookie
  /-- `QDateTime::toString("ddd, dd MMM yyyy hh:mm:ss")` on a valid date. -/
  dateToString : Int → String
  /-- `QDateTime::fromString(s, "ddd, dd MMM yyyy hh:mm:ss")`; `none` is the
  invalid date. -/
  dateFromString : String → Option Int

/-! ## The data stream -/

/-- One item of a serialised stream: a 32-bit word or a length-prefixed byte
array. -/
inductive Field where
  | u32 (n : Nat) : Field
  | bytes (b : String) : Field
deriving DecidableEq, Repr

/-- Status of a stream (`QDataStream::Status`). -/
inductive Status where
  | Ok : Status
  | ReadPastEnd : Status
deriving DecidableEq, Repr

/-- Modelled from the spec: the type `QDataStream`.  The spec leaves the byte
layout open and fixes the persisted value as a format version, a count and a
sequence of length-prefixed blobs, so a stream is the sequence of its items
still to be read, together with its status. -/
structure QDataStream where
  fields : List Field := []
  status : Status := Status.Ok
deriving DecidableEq, Repr

namespace QDataStream

/-- Writing a 32-bit integer (`stream << quint32`, `stream << int`). -/
def writeU32 (s : QDataStream) (n : Nat) : QDataStream :=
  { s with fields := s.fields ++ [Field.u32 (n % 2 ^ 32)] }

/-- Writing a byte array (`stream << QByteArray`). -/
def writeBytes (s : QDataStream) (b : String) : QDataStream :=
  { s with fields := s.fields ++ [Field.bytes b] }

/-- Reading a 32-bit integer (`stream >> quint32`).  When the next item is not
a word the read fails as a read past the end does: the value is 0, the status
is `ReadPastEnd` and the stream is exhausted. -/
def readU32 (s : QDataStream) : Nat × QDataStream :=
  match s.fields with
  | Field.u32 n :: rest => (n % 2 ^ 32, { s with fields := rest })
  | _ => (0, { fields := [], status := Status.ReadPastEnd })

/-- Reading a byte array (`stream >> QByteArray`).  A failed read yields the
empty array, status `ReadPastEnd` and an exhausted stream. -/
def readBytes (s : QDataStream) : String × QDataStream :=
  match s.fields with
  | Field.bytes b :: rest => (b, { s with fields := rest })
  | _ => ("", { fields := [], status := Status.ReadPastEnd })

/-- `QDataStream::atEnd`. -/
def atEnd (s : QDataStream) : Bool := s.fields.isEmpty

end QDataStream

/-! ## Serialisation operators (cookiejar.cpp, lines 38-77) -/

/-- `QList::clear`. -/
def qListClear {α : Type} (_list : List α) : List α := []

/-- `#define COOKIE_JAR_VERSION 1`. -/
def COOKIE_JAR_VERSION : Nat := 1

/-- `QDataStream &operator<<(QDataStream &, const QList<QNetworkCookie> &)`:
writes the version, the number of cookies as a `quint32`, then the raw form of
every cookie in list order. -/
def operatorWrite (qt : QtLib) (stream : QDataStream) (list : List QNetworkCookie) :
    QDataStream :=
  let stream := stream.writeU32 COOKIE_JAR_VERSION
  let stream := stream.writeU32 list.length
  list.foldl (fun s c => s.writeBytes (qt.toRawForm c)) stream

/-- Body of the `for (quint32 i = 0; i < count; ++i)` loop of `operator>>`,
with `k = count - i` iterations left: reads one byte array, appends the
cookies it parses to to the list (an entry that parses to nothing only
triggers a `qWarning`, which has no effect on the result), and leaves the loop
early when the stream is at its end. -/
def operatorReadLoop (qt : QtLib) :
    Nat → QDataStream → List QNetworkCookie → QDataStream × List QNetworkCookie
  | 0, stream, list => (stream, list)
  | k + 1, stream, list =>
    let (value, stream) := stream.readBytes
    let newCookies := qt.parseCookies value
    let list := list ++ newCookies
    if stream.atEnd then (stream, list) else operatorReadLoop qt k stream list

/-- `QDataStream &operator>>(QDataStream &, QList<QNetworkCookie> &)`: clears
the target list, reads the version and returns at once when it is not
`COOKIE_JAR_VERSION`, otherwise reads the count and runs the loop. -/
def operatorRead (qt : QtLib) (stream : QDataStream) (list : List QNetworkCookie) :
    QDataStream × List QNetworkCookie :=
  let list := qListClear list
  let (version, stream) := stream.readU32
  if version != COOKIE_JAR_VERSION then (stream, list)
  else
    let (count, stream) := stream.readU32
    operatorReadLoop qt count stream list

/-! ## The base class `QNetworkCookieJar` -/

namespace QNetworkCookieJar

/-- Domain rule of the matcher, in the spec's words: the cookie's domain is
the url's host exactly, or it is a suffix of the host preceded by a dot. -/
def domainMatch (c : QNetworkCookie) (url : QUrl) : Bool :=
  c.domain == url.host || c.domain.data.isSuffixOf ('.' :: url.host.data)

/-- Path rule of the matcher: the cookie's path is a prefix of the url's
path, or the cookie's path is `/`. -/
def pathMatch (c : QNetworkCookie) (url : QUrl) : Bool :=
  c.path.data.isPrefixOf url.path.data || c.path == "/"

/-- Secure rule of the matcher: the cookie is not secure, or the url's scheme
is. -/
def secureMatch (c : QNetworkCookie) (url : QUrl) : Bool :=
  !c.secure || url.isSecure

/-- Modelled from the spec: `QNetworkCookieJar::cookiesForUrl`, whose code is
in Qt.  It returns every stored cookie whose domain matches the url's host,
whose path matches the url's path and which is not secure unless the scheme
is, in storage order. -/
def cookiesForUrl (allCookies : List QNetworkCookie) (url : QUrl) : List QNetworkCookie :=
  allCookies.filter (fun c => domainMatch c url && pathMatch c url && secureMatch c url)

/-- The incoming cookie replaces the stored cookie that shares its identity
key, or is appended when there is none. -/
def insertCookie (allCookies : List QNetworkCookie) (c : QNetworkCookie) :
    List QNetworkCookie :=
  if allCookies.any (fun e => e.key == c.key) then
    allCookies.map (fun e => if e.key == c.key then c else e)
  else allCookies ++ [c]

/-- An incoming cookie with an empty domain is assigned the url's host. -/
def assignDomain (url : QUrl) (c : QNetworkCookie) : QNetworkCookie :=
  if qIsEmpty c.domain then { c with domain := url.host } else c

/-- Modelled from the spec: `QNetworkCookieJar::setCookiesFromUrl`, whose code
is in Qt.  Each incoming cookie, in list order, gets the url's host as domain
when its own is empty and then replaces the stored cookie with its identity
key or is appended; no cookie is rejected.  The result says whether at least
one cookie was added or replaced. -/
def setCookiesFromUrl (allCookies cookieList : List QNetworkCookie) (url : QUrl) :
    List QNetworkCookie × Bool :=
  (cookieList.foldl (fun coll c => insertCookie coll (assignDomain url c)) allCookies,
    !cookieList.isEmpty)

end QNetworkCookieJar

/-! ## The class `CookieJar` (cookiejar.cpp, lines 81-364) -/

/-- State of a `CookieJar`: the cookie list of the base class
(`allCookies()` / `setAllCookies()`), the value stored under the key
`cookies` in the `QSettings` backing store (`none` when the key is absent;
the value is kept serialised, as the stream operators registered by `load`
write it), and the `m_enabled` flag. -/
structure CookieJar where
  allCookies : List QNetworkCookie
  m_cookieStorage : Option QDataStream
  m_enabled : Bool
deriving DecidableEq, Repr

namespace CookieJar

/-- `QNetworkCookieJar::setAllCookies`. -/
def setAllCookies (jar : CookieJar) (cookieList : List QNetworkCookie) : CookieJar :=
  { jar with allCookies := cookieList }

/-- `m_cookieStorage->setValue("cookies", QVariant::fromValue(list))`: the
list is stored in the form `operator<<` gives it on a fresh stream. -/
def storageSetValue (qt : QtLib) (jar : CookieJar) (list : List QNetworkCookie) : CookieJar :=
  { jar with m_cookieStorage := some (operatorWrite qt {} list) }

/-- `qvariant_cast<QList<QNetworkCookie> >(m_cookieStorage->value("cookies"))`:
the stored stream decoded by `operator>>`, or the empty list when the key is
absent. -/
def storageValue (qt : QtLib) (jar : CookieJar) : List QNetworkCookie :=
  match jar.m_cookieStorage with
  | some stream => (operatorRead qt stream []).2
  | none => []

/-- State right after the constructor `CookieJar::CookieJar(cookiesFile)`:
no cookie in memory yet (`load` is deferred), the jar enabled. -/
def new (storage : Option QDataStream) : CookieJar :=
  { allCookies := [], m_cookieStorage := storage, m_enabled := true }

/-- `CookieJar::isEnabled`. -/
def isEnabled (jar : CookieJar) : Bool := jar.m_enabled

/-- `CookieJar::enable`. -/
def enable (jar : CookieJar) : CookieJar := { jar with m_enabled := true }

/-- `CookieJar::disable`. -/
def disable (jar : CookieJar) : CookieJar := { jar with m_enabled := false }

/-- The loop of `purgeExpiredCookies` over its local list, `i + 1` being the
number of indices still to visit: indices are visited from the last to the
first and the cookie at the index is removed when it is not a session cookie
and its expiration date is before `now`. -/
def purgeExpiredLoop (now : Int) : Nat → List QNetworkCookie → List QNetworkCookie
  | 0, cookies => cookies
  | i + 1, cookies =>
    let c := cookies.getD i default
    if !c.isSessionCookie && qDateTimeLt c.expirationDate now then
      purgeExpiredLoop now i (cookies.eraseIdx i)
    else purgeExpiredLoop now i cookies

/-- `CookieJar::purgeExpiredCookies`.  The method works on `cookies`, a local
copy of `allCookies()`, and returns whether the copy lost a cookie; the copy
is never handed to `setAllCookies`, so the jar comes back as it was. -/
def purgeExpiredCookies (jar : CookieJar) (now : Int) : CookieJar × Bool :=
  let cookies := jar.allCookies
  if cookies.isEmpty then (jar, false)
  else
    let prePurgeCookiesCount := cookies.length
    let cookies := purgeExpiredLoop now cookies.length cookies
    (jar, prePurgeCookiesCount != cookies.length)

/-- The loop of `purgeSessionCookies` over its local list. -/
def purgeSessionLoop : Nat → List QNetworkCookie → List QNetworkCookie
  | 0, cookies => cookies
  | i + 1, cookies =>
    let c := cookies.getD i default
    if c.isSessionCookie then purgeSessionLoop i (cookies.eraseIdx i)
    else purgeSessionLoop i cookies

/-- `CookieJar::purgeSessionCookies`.  As in `purgeExpiredCookies`, the local
copy `cookies` is filtered and then dropped. -/
def purgeSessionCookies (jar : CookieJar) : CookieJar × Bool :=
  let cookies := jar.allCookies
  if cookies.isEmpty then (jar, false)
  else
    let prePurgeCookiesCount := cookies.length
    let cookies := purgeSessionLoop cookies.length cookies
    (jar, prePurgeCookiesCount != cookies.length)

/-- `CookieJar::save`: when enabled, runs `purgeExpiredCookies` and stores
`allCookies()` under the key `cookies`. -/
def save (qt : QtLib) (jar : CookieJar) (now : Int) : CookieJar :=
  if jar.isEnabled then
    let jar := (jar.purgeExpiredCookies now).1
    jar.storageSetValue qt jar.allCookies
  else jar

/-- `CookieJar::load`: when enabled, replaces the cookies in memory by the
stored ones, then saves if `purgeExpiredCookies` reports a removal. -/
def load (qt : QtLib) (jar : CookieJar) (now : Int) : CookieJar :=
  if jar.isEnabled then
    let jar := jar.setAllCookies (jar.storageValue qt)
    let r := jar.purgeExpiredCookies now
    if r.2 then r.1.save qt now else r.1
  else jar

/-- `CookieJar::~CookieJar`: `purgeSessionCookies()` then `save()`. -/
def destructor (qt : QtLib) (jar : CookieJar) (now : Int) : CookieJar :=
  let jar := jar.purgeSessionCookies.1
  jar.save qt now

/-- `CookieJar::setCookiesFromUrl`: when enabled and the base class reports a
change, saves and returns true; returns false otherwise. -/
def setCookiesFromUrl (qt : QtLib) (jar : CookieJar) (cookieList : List QNetworkCookie)
    (url : QUrl) (now : Int) : CookieJar × Bool :=
  if jar.isEnabled then
    let r := QNetworkCookieJar.setCookiesFromUrl jar.allCookies cookieList url
    if r.2 then ((jar.setAllCookies r.1).save qt now, true)
    else (jar.setAllCookies r.1, false)
  else (jar, false)

/-- `CookieJar::cookiesForUrl`: the base class answer when enabled, the empty
list otherwise. -/
def cookiesForUrl (jar : CookieJar) (url : QUrl) : List QNetworkCookie :=
  if jar.isEnabled then QNetworkCookieJar.cookiesForUrl jar.allCookies url
  else []

/-- `CookieJar::addCookie`: when enabled, hands the one-element list to
`setCookiesFromUrl`, with the given url or, when that is empty, with a url
built from the cookie: scheme by the secure flag, the domain (after `www`
when it starts with a dot) and the path (`/` when empty). -/
def addCookie (qt : QtLib) (jar : CookieJar) (cookie : QNetworkCookie) (url : String)
    (now : Int) : CookieJar :=
  if jar.isEnabled then
    (jar.setCookiesFromUrl qt [cookie]
      (if !qIsEmpty url then QUrl.ofString url
       else QUrl.ofString
        ((if cookie.secure then "https://" else "http://") ++
         (if qStartsWith cookie.domain '.' then "www" else "") ++ cookie.domain ++
         (if qIsEmpty cookie.path then "/" else cookie.path)))
      now).1
  else jar

/-- `CookieJar::addCookieFromMap`: a record with a non-empty `domain`, a
non-empty `name` and a `value` becomes a cookie (path `/` by default, flags
false by default, expiration only when `expires` parses to a valid date) that
is passed to `addCookie`; any other record is dropped. -/
def addCookieFromMap (qt : QtLib) (jar : CookieJar) (cookie : QVariantMap) (url : String)
    (now : Int) : CookieJar :=
  let newCookie : QNetworkCookie := {}
  if !(cookie.get "domain").isNull && !qIsEmpty (cookie.get "domain").toString &&
      !(cookie.get "name").isNull && !qIsEmpty (cookie.get "name").toString &&
      !(cookie.get "value").isNull then
    let newCookie := { newCookie with domain := (cookie.get "domain").toString }
    let newCookie := { newCookie with name := (cookie.get "name").toString }
    let newCookie := { newCookie with value := (cookie.get "value").toString }
    let newCookie := { newCookie with
      path := if (cookie.get "path").isNull || qIsEmpty (cookie.get "path").toString then "/"
              else (cookie.get "path").toString }
    let newCookie := { newCookie with
      httpOnly := if (cookie.get "httponly").isNull then false
                  else (cookie.get "httponly").toBool }
    let newCookie := { newCookie with
      secure := if (cookie.get "secure").isNull then false else (cookie.get "secure").toBool }
    let newCookie :=
      if !(cookie.get "expires").isNull then
        let datetime := String.mk (qRemoveGMT (cookie.get "expires").toString.data)
        let expires := qt.dateFromString datetime
        if expires.isSome then newCookie.setExpirationDate expires else newCookie
      else newCookie
    jar.addCookie qt newCookie url now
  else jar

/-- Loop of `addCookies`, from the last index to the first; `i + 1` indices
are left. -/
def addCookiesLoop (qt : QtLib) (cookiesList : List QNetworkCookie) (url : String)
    (now : Int) : Nat → CookieJar → CookieJar
  | 0, jar => jar
  | i + 1, jar =>
    addCookiesLoop qt cookiesList url now i
      (jar.addCookie qt (cookiesList.getD i default) url now)

/-- `CookieJar::addCookies`. -/
def addCookies (qt : QtLib) (jar : CookieJar) (cookiesList : List QNetworkCookie)
    (url : String) (now : Int) : CookieJar :=
  addCookiesLoop qt cookiesList url now cookiesList.length jar

/-- Loop of `addCookiesFromMap`, from the last index to the first. -/
def addCookiesFromMapLoop (qt : QtLib) (cookiesList : List QVariantMap) (url : String)
    (now : Int) : Nat → CookieJar → CookieJar
  | 0, jar => jar
  | i + 1, jar =>
    addCookiesFromMapLoop qt cookiesList url now i
      (jar.addCookieFromMap qt (cookiesList.getD i []) url now)

/-- `CookieJar::addCookiesFromMap`; the `QVariantList` is given as the list of
the records its elements convert to. -/
def addCookiesFromMap (qt : QtLib) (jar : CookieJar) (cookiesList : List QVariantMap)
    (url : String) (now : Int) : CookieJar :=
  addCookiesFromMapLoop qt cookiesList url now cookiesList.length jar

/-- `CookieJar::cookies`: every cookie of the jar when no url is given, the
cookies `cookiesForUrl` returns otherwise. -/
def cookies (jar : CookieJar) (url : String) : List QNetworkCookie :=
  if qIsEmpty url then jar.allCookies
  else jar.cookiesForUrl (QUrl.ofString url)

/-- One pass of the loop body of `cookiesToMap`: the fields of `c` are
assigned into the record `cookie`, which the method declares once, before the
loop. -/
def cookiesToMapStep (qt : QtLib) (cookie : QVariantMap) (c : QNetworkCookie) : QVariantMap :=
  let cookie := cookie.set "domain" (QVariant.string c.domain)
  let cookie := cookie.set "name" (QVariant.string c.name)
  let cookie := cookie.set "value" (QVariant.string c.value)
  let cookie := cookie.set "path"
    (if qIsEmpty c.path then QVariant.string "/" else QVariant.string c.path)
  let cookie := cookie.set "httponly" (QVariant.bool c.httpOnly)
  let cookie := cookie.set "secure" (QVariant.bool c.secure)
  match c.expirationDate with
  | some t => cookie.set "expires" (QVariant.string (qt.dateToString t ++ " GMT"))
  | none => cookie

/-- Loop of `cookiesToMap`, from the last index to the first; the record
`cookie` is carried from one pass to the next. -/
def cookiesToMapLoop (qt : QtLib) (cookiesList : List QNetworkCookie) :
    Nat → QVariantMap → List QVariantMap → List QVariantMap
  | 0, _, result => result
  | i + 1, cookie, result =>
    let c := cookiesList.getD i default
    let cookie := cookiesToMapStep qt cookie c
    cookiesToMapLoop qt cookiesList i cookie (result ++ [cookie])

/-- `CookieJar::cookiesToMap`. -/
def cookiesToMap (qt : QtLib) (jar : CookieJar) (url : String) : List QVariantMap :=
  let cookiesList := jar.cookies url
  cookiesToMapLoop qt cookiesList cookiesList.length [] []

/-- Loop of `cookie`, from the last index to the first: the first cookie met
with the name is returned, the default cookie when there is none. -/
def cookieLoop (cookiesList : List QNetworkCookie) (name : String) : Nat → QNetworkCookie
  | 0 => {}
  | i + 1 =>
    if (cookiesList.getD i default).name == name then cookiesList.getD i default
    else cookieLoop cookiesList name i

/-- `CookieJar::cookie`. -/
def cookie (jar : CookieJar) (name : String) (url : String) : QNetworkCookie :=
  let cookiesList := jar.cookies url
  cookieLoop cookiesList name cookiesList.length

/-- Loop of `cookieToMap`, from the last index to the first. -/
def cookieToMapLoop (cookiesList : List QVariantMap) (name : String) : Nat → QVariantMap
  | 0 => []
  | i + 1 =>
    let cookie := cookiesList.getD i []
    if (cookie.get "name").toString == name then cookie
    else cookieToMapLoop cookiesList name i

/-- `CookieJar::cookieToMap`. -/
def cookieToMap (qt : QtLib) (jar : CookieJar) (name : String) (url : String) : QVariantMap :=
  let cookiesList := jar.cookiesToMap qt url
  cookieToMapLoop cookiesList name cookiesList.length

/-- Loop of `deleteCookie`, from the last index to the first.  On the first
cookie with the name, the local copy `cookie` gets the expiration date
`QDateTime().addDays(-1)`; the call that follows passes `cookiesList`, which
still holds the cookie as it was, to `setCookiesFromUrl`, and the method
returns. -/
def deleteCookieLoop (qt : QtLib) (jar : CookieJar) (name : String) (url : String)
    (now : Int) (cookiesList : List QNetworkCookie) : Nat → CookieJar
  | 0 => jar
  | i + 1 =>
    let cookie := cookiesList.getD i default
    if cookie.name == name then
      let _cookie := cookie.setExpirationDate (qDateTimeAddDays none (-1))
      (jar.setCookiesFromUrl qt cookiesList (QUrl.ofString url) now).1
    else deleteCookieLoop qt jar name url now cookiesList i

/-- `CookieJar::deleteCookie`. -/
def deleteCookie (qt : QtLib) (jar : CookieJar) (name : String) (url : String)
    (now : Int) : CookieJar :=
  if jar.isEnabled && !qIsEmpty name then
    let cookiesList := jar.cookies url
    deleteCookieLoop qt jar name url now cookiesList cookiesList.length
  else jar

/-- `CookieJar::clearCookies`. -/
def clearCookies (jar : CookieJar) : CookieJar :=
  if jar.isEnabled then jar.setAllCookies [] else jar

/-- `CookieJar::deleteCookies`: without a url every cookie is cleared; with a
url, `setCookiesFromUrl` is called with the empty list. -/
def deleteCookies (qt : QtLib) (jar : CookieJar) (url : String) (now : Int) : CookieJar :=
  if jar.isEnabled then
    if qIsEmpty url then jar.clearCookies
    else (jar.setCookiesFromUrl qt [] (QUrl.ofString url) now).1
  else jar

end CookieJar

/-! ## Auxiliary definitions used in the statements -/

/-- The purge condition of `purgeExpiredCookies`: the cookie is not a session
cookie and its expiration date is before `now`. -/
def QNetworkCookie.isExpiredAt (now : Int) (c : QNetworkCookie) : Bool :=
  !c.isSessionCookie && qDateTimeLt c.expirationDate now

/-- Reverse index loop that erases the elements satisfying `p`; both purge
loops are instances of it. -/
def revEraseLoop {α : Type} [Inhabited α] (p : α → Bool) : Nat → List α → List α
  | 0, l => l
  | i + 1, l =>
    if p (l.getD i default) then revEraseLoop p i (l.eraseIdx i) else revEraseLoop p i l

/-- Cookie text and date functions given by finite tables: the raw form of a
cookie of the table is the text listed with it, a text parses to the cookies
listed with it, and dates convert as listed.  It stands for Qt on the inputs
of the concrete examples. -/
def tableQt (table : List (String × QNetworkCookie)) (dates : List (Int × String)) : QtLib where
  toRawForm c :=
    match table.find? (fun e => e.2 == c) with
    | some e => e.1
    | none => ""
  parseCookies text := (table.filter (fun e => e.1 == text)).map (fun e => e.2)
  dateToString t :=
    match dates.find? (fun e => e.1 == t) with
    | some e => e.2
    | none => ""
  dateFromString s :=
    match dates.find? (fun e => e.2 == s) with
    | some e => some e.1
    | none => none

/-- A session cookie `a=1` for `x.com`. -/
def sessionCookie : QNetworkCookie :=
  { name := "a", value := "1", domain := "x.com", path := "/" }

/-- A cookie `b=2` for `x.com` that expired at instant 50. -/
def expiredCookie : QNetworkCookie :=
  { name := "b", value := "2", domain := "x.com", path := "/", expirationDate := some 50 }

/-- A cookie `p=3` for `x.com` that expires at instant 200. -/
def persistentCookie : QNetworkCookie :=
  { name := "p", value := "3", domain := "x.com", path := "/", expirationDate := some 200 }

/-- The Qt text functions on the three example cookies. -/
def demoQt : QtLib :=
  tableQt
    [("a=1; domain=x.com; path=/", sessionCookie),
     ("b=2; expires=Thu, 01-Jan-1970 00:00:50 GMT; domain=x.com; path=/", expiredCookie),
     ("p=3; expires=Thu, 01-Jan-1970 00:03:20 GMT; domain=x.com; path=/", persistentCookie)]
    [(50, "Thu, 01 Jan 1970 00:00:50"), (200, "Thu, 01 Jan 1970 00:03:20")]

/-- An enabled jar holding a session cookie and an expired cookie, nothing
persisted yet. -/
def jarWithExpired : CookieJar :=
  { allCookies := [sessionCookie, expiredCookie], m_cookieStorage := none, m_enabled := true }

/-- An enabled jar holding a cookie with a future expiry and a session
cookie, nothing persisted yet. -/
def jarAtShutdown : CookieJar :=
  { allCookies := [persistentCookie, sessionCookie], m_cookieStorage := none, m_enabled := true }

/-- A disabled jar that holds the session cookie in memory and in its
backing store. -/
def jarDisabled : CookieJar :=
  { allCookies := [sessionCookie]
    m_cookieStorage := some (operatorWrite demoQt {} [sessionCookie])
    m_enabled := false }

/-- A finite sequence of `setCookiesFromUrl` calls, each with its cookie
list, its url and the time of the call, run from left to right. -/
def CookieJar.setCookiesFromUrlSeq (qt : QtLib) :
    CookieJar → List (List QNetworkCookie × QUrl × Int) → CookieJar
  | jar, [] => jar
  | jar, call :: rest =>
    setCookiesFromUrlSeq qt (jar.setCookiesFromUrl qt call.1 call.2.1 call.2.2).1 rest

/-- The records `cookiesToMap` builds from a list of cookies taken in the
order of the loop, `m` being the record carried into the first pass. -/
def recordsFrom (qt : QtLib) : QVariantMap → List QNetworkCookie → List QVariantMap
  | _, [] => []
  | m, c :: cs =>
    CookieJar.cookiesToMapStep qt m c :: recordsFrom qt (CookieJar.cookiesToMapStep qt m c) cs

/-- In the spec's words, the cookie a lookup by name selects: the last cookie
of the list, in storage order, whose name is the name. -/
def lastWithName (l : List QNetworkCookie) (name : String) : Option QNetworkCookie :=
  (l.filter (fun c => c.name == name)).getLast?

/-- A session cookie `a=2` for `y.com`: same name as `sessionCookie`, another
domain. -/
def otherSiteCookie : QNetworkCookie :=
  { name := "a", value := "2", domain := "y.com", path := "/" }

/-- A session cookie `a=1` for `x.com` with an empty path. -/
def noPathCookie : QNetworkCookie :=
  { name := "a", value := "1", domain := "x.com", path := "" }

/-- An enabled jar holding two cookies named `a`, for two domains. -/
def jarSameName : CookieJar :=
  { allCookies := [sessionCookie, otherSiteCookie], m_cookieStorage := none, m_enabled := true }

/-- An enabled jar holding one cookie, whose path is empty. -/
def jarEmptyPath : CookieJar :=
  { allCookies := [noPathCookie], m_cookieStorage := none, m_enabled := true }

/-- The url `addCookie` hands to `setCookiesFromUrl`: the given url, or the
url built from the cookie when none is given. -/
def CookieJar.addCookieUrl (cookie : QNetworkCookie) (url : String) : QUrl :=
  if !qIsEmpty url then QUrl.ofString url
  else QUrl.ofString
    ((if cookie.secure then "https://" else "http://") ++
     (if qStartsWith cookie.domain '.' then "www" else "") ++ cookie.domain ++
     (if qIsEmpty cookie.path then "/" else cookie.path))

/-- The cookie as `addCookie(cookie, url)` gets it accepted: with the host of
the url as domain when its own domain is empty. -/
def acceptedCookie (url : String) (c : QNetworkCookie) : QNetworkCookie :=
  QNetworkCookieJar.assignDomain (CookieJar.addCookieUrl c url) c

/-- The cookie `addCookieFromMap` builds from a record and passes to
`addCookie`; `none` for a record it drops. -/
def cookieOfMap (qt : QtLib) (cookie : QVariantMap) : Option QNetworkCookie :=
  let newCookie : QNetworkCookie := {}
  if !(cookie.get "domain").isNull && !qIsEmpty (cookie.get "domain").toString &&
      !(cookie.get "name").isNull && !qIsEmpty (cookie.get "name").toString &&
      !(cookie.get "value").isNull then
    let newCookie := { newCookie with domain := (cookie.get "domain").toString }
    let newCookie := { newCookie with name := (cookie.get "name").toString }
    let newCookie := { newCookie with value := (cookie.get "value").toString }
    let newCookie := { newCookie with
      path := if (cookie.get "path").isNull || qIsEmpty (cookie.get "path").toString then "/"
              else (cookie.get "path").toString }
    let newCookie := { newCookie with
      httpOnly := if (cookie.get "httponly").isNull then false
                  else (cookie.get "httponly").toBool }
    let newCookie := { newCookie with
      secure := if (cookie.get "secure").isNull then false else (cookie.get "secure").toBool }
    let newCookie :=
      if !(cookie.get "expires").isNull then
        let datetime := String.mk (qRemoveGMT (cookie.get "expires").toString.data)
        let expires := qt.dateFromString datetime
        if expires.isSome then newCookie.setExpirationDate expires else newCookie
      else newCookie
    some newCookie
  else none

/-- A session cookie `a=2` for `x.com`: the identity key of `sessionCookie`,
another value. -/
def laterValueCookie : QNetworkCookie :=
  { name := "a", value := "2", domain := "x.com", path := "/" }

/-- The record `{domain: "x.com", name: "a", value: "1"}`. -/
def recordA1 : QVariantMap :=
  [("domain", QVariant.string "x.com"), ("name", QVariant.string "a"),
   ("value", QVariant.string "1")]

/-- The record `{domain: "x.com", name: "a", value: "2"}`. -/
def recordA2 : QVariantMap :=
  [("domain", QVariant.string "x.com"), ("name", QVariant.string "a"),
   ("value", QVariant.string "2")]

/-- In the spec's words, the requirement of `addCookieFromMap` on a record: a
non-empty domain, a non-empty name and a present (possibly empty) value.  A
field is present when the record binds its key to a valid variant; it is
non-empty when, moreover, its text is not the empty string. -/
def recordHasRequiredFields (r : QVariantMap) : Prop :=
  (r.get "domain" ≠ QVariant.invalid ∧ (r.get "domain").toString ≠ "") ∧
  (r.get "name" ≠ QVariant.invalid ∧ (r.get "name").toString ≠ "") ∧
  r.get "value" ≠ QVariant.invalid

/-- The backing store holds the collection in memory: the stored value is
what `save` writes for `allCookies()`. -/
def CookieJar.persistedInSync (qt : QtLib) (jar : CookieJar) : Prop :=
  jar.m_cookieStorage = some (operatorWrite qt {} jar.allCookies)

/-- An enabled jar holding the session cookie in memory and in its backing
store. -/
def jarInSync : CookieJar :=
  { allCookies := [sessionCookie]
    m_cookieStorage := some (operatorWrite demoQt {} [sessionCookie])
    m_enabled := true }

/-- A non-secure cookie for the domain `.example.com`, path `/`. -/
def exampleCookie : QNetworkCookie :=
  { name := "s", value := "v", domain := ".example.com", path := "/" }

/-- An enabled jar holding the cookie for `.example.com`. -/
def jarExample : CookieJar :=
  { allCookies := [exampleCookie], m_cookieStorage := none, m_enabled := true }

theorem revEraseLoop_eq {α : Type} [Inhabited α] (p : α → Bool) :
    ∀ (i : Nat) (l : List α), i ≤ l.length →
      revEraseLoop p i l = (l.take i).filter (fun a => !p a) ++ l.drop i := by
  intro i
  induction i with
  | zero => intro l _; simp [revEraseLoop]
  | succ i ih =>
    intro l hl
    have hi : i < l.length := hl
    have hget : l.getD i default = l[i] := by
      simp [List.getD, List.getElem?_eq_getElem hi]
    have htake : l.take (i + 1) = l.take i ++ [l[i]] := by
      rw [List.take_succ, List.getElem?_eq_getElem hi]; rfl
    rw [revEraseLoop, hget, htake, List.filter_append]
    by_cases hp : p l[i] = true
    · have hlen : i ≤ (l.eraseIdx i).length := by
        rw [List.length_eraseIdx]; split <;> omega
      rw [if_pos hp, ih _ hlen, List.eraseIdx_eq_take_drop_succ]
      have h1 : (l.take i ++ l.drop (i + 1)).take i = l.take i := by
        rw [List.take_append_of_le_length (by simp; omega)]
        simp [List.take_take]
      have h2 : (l.take i ++ l.drop (i + 1)).drop i = l.drop (i + 1) := by
        rw [List.drop_append_of_le_length (by simp; omega)]
        simp [List.drop_take]
      rw [h1, h2]
      simp [hp]
    · rw [if_neg hp, ih _ (by omega)]
      have hd : l.drop i = l[i] :: l.drop (i + 1) := List.drop_eq_getElem_cons hi
      rw [hd]
      simp [hp]

theorem revEraseLoop_length {α : Type} [Inhabited α] (p : α → Bool) (l : List α) :
    revEraseLoop p l.length l = l.filter (fun a => !p a) := by
  rw [revEraseLoop_eq p l.length l (le_refl _)]
  simp

theorem purgeExpiredLoop_eq_revEraseLoop (now : Int) :
    ∀ (i : Nat) (l : List QNetworkCookie),
      CookieJar.purgeExpiredLoop now i l = revEraseLoop (QNetworkCookie.isExpiredAt now) i l := by
  intro i
  induction i with
  | zero => intro l; rfl
  | succ i ih =>
    intro l
    simp only [CookieJar.purgeExpiredLoop, revEraseLoop, QNetworkCookie.isExpiredAt, ih]

theorem purgeSessionLoop_eq_revEraseLoop :
    ∀ (i : Nat) (l : List QNetworkCookie),
      CookieJar.purgeSessionLoop i l = revEraseLoop QNetworkCookie.isSessionCookie i l := by
  intro i
  induction i with
  | zero => intro l; rfl
  | succ i ih =>
    intro l
    simp only [CookieJar.purgeSessionLoop, revEraseLoop, ih]

/-- The local list of `purgeExpiredCookies` ends up as the cookies that are
not expired, in their original order. -/
theorem purgeExpiredLoop_eq_filter (now : Int) (l : List QNetworkCookie) :
    CookieJar.purgeExpiredLoop now l.length l = l.filter (fun c => !c.isExpiredAt now) := by
  rw [purgeExpiredLoop_eq_revEraseLoop, revEraseLoop_length]

/-- The local list of `purgeSessionCookies` ends up as the cookies that are
not session cookies, in their original order. -/
theorem purgeSessionLoop_eq_filter (l : List QNetworkCookie) :
    CookieJar.purgeSessionLoop l.length l = l.filter (fun c => !c.isSessionCookie) := by
  rw [purgeSessionLoop_eq_revEraseLoop, revEraseLoop_length]

/-! ## Lemmas on the lifecycle methods -/

/-- `purgeExpiredCookies` hands back the jar it was given. -/
theorem purgeExpiredCookies_fst (jar : CookieJar) (now : Int) :
    (jar.purgeExpiredCookies now).1 = jar := by
  simp only [CookieJar.purgeExpiredCookies]
  split <;> rfl

/-- `purgeSessionCookies` hands back the jar it was given. -/
theorem purgeSessionCookies_fst (jar : CookieJar) : jar.purgeSessionCookies.1 = jar := by
  simp only [CookieJar.purgeSessionCookies]
  split <;> rfl

/-- The value `purgeExpiredCookies` returns: whether some stored cookie is
expired at `now`. -/
theorem purgeExpiredCookies_snd (jar : CookieJar) (now : Int) :
    (jar.purgeExpiredCookies now).2 = jar.allCookies.any (QNetworkCookie.isExpiredAt now) := by
  simp only [CookieJar.purgeExpiredCookies]
  split
  · rename_i h
    rw [List.isEmpty_iff] at h
    simp [h]
  · simp only [purgeExpiredLoop_eq_filter]
    by_cases hany : jar.allCookies.any (QNetworkCookie.isExpiredAt now) = true
    · rw [hany]
      obtain ⟨c, hc, hexp⟩ := List.any_eq_true.mp hany
      have hlt : (jar.allCookies.filter (fun c => !c.isExpiredAt now)).length
          < jar.allCookies.length :=
        List.length_filter_lt_length_iff_exists.mpr ⟨c, hc, by simp [hexp]⟩
      exact bne_iff_ne.mpr (by omega)
    · have hall : ∀ c ∈ jar.allCookies, (!c.isExpiredAt now) = true := by
        intro c hc
        cases hexp : c.isExpiredAt now
        · rfl
        · exact absurd (List.any_eq_true.mpr ⟨c, hc, hexp⟩) hany
      rw [List.filter_eq_self.mpr hall]
      simp only [Bool.not_eq_true] at hany
      rw [hany]
      simp

/-- `save` on an enabled jar stores `allCookies()` and changes nothing
else. -/
theorem save_of_enabled (qt : QtLib) (jar : CookieJar) (now : Int) (h : jar.m_enabled = true) :
    jar.save qt now =
      { jar with m_cookieStorage := some (operatorWrite qt {} jar.allCookies) } := by
  simp [CookieJar.save, CookieJar.isEnabled, h, purgeExpiredCookies_fst,
    CookieJar.storageSetValue]

/-- `save` on a disabled jar does nothing. -/
theorem save_of_disabled (qt : QtLib) (jar : CookieJar) (now : Int)
    (h : jar.m_enabled = false) : jar.save qt now = jar := by
  simp [CookieJar.save, CookieJar.isEnabled, h]

/-- `save` never changes the cookies in memory. -/
theorem save_allCookies (qt : QtLib) (jar : CookieJar) (now : Int) :
    (jar.save qt now).allCookies = jar.allCookies := by
  cases h : jar.m_enabled
  · rw [save_of_disabled qt jar now h]
  · rw [save_of_enabled qt jar now h]

/-- `save` never changes the enabled flag. -/
theorem save_enabled (qt : QtLib) (jar : CookieJar) (now : Int) :
    (jar.save qt now).m_enabled = jar.m_enabled := by
  cases h : jar.m_enabled
  · rw [save_of_disabled qt jar now h, h]
  · rw [save_of_enabled qt jar now h]; exact h

/-! ## C1: purge of expired cookies -/

/-- C1 (violated by the code): `purgeExpiredCookies` filters a local copy of
the cookie list and never stores it back, so it returns every jar unchanged.
On the jar holding a session cookie and a cookie expired at 50, at time 100,
the expired cookie is still in the collection after the purge (which reports a
removal), and `save` writes both cookies, the expired one included, to the
backing store. -/
theorem purgeExpiredCookies_keeps_expired_cookie :
    (∀ (jar : CookieJar) (now : Int), (jar.purgeExpiredCookies now).1 = jar) ∧
    (expiredCookie.isSessionCookie = false ∧
      qDateTimeLt expiredCookie.expirationDate 100 = true) ∧
    jarWithExpired.purgeExpiredCookies 100 = (jarWithExpired, true) ∧
    (jarWithExpired.purgeExpiredCookies 100).1.allCookies = [sessionCookie, expiredCookie] ∧
    (∀ qt : QtLib, (jarWithExpired.save qt 100).m_cookieStorage =
      some (operatorWrite qt {} [sessionCookie, expiredCookie])) := by
  refine ⟨purgeExpiredCookies_fst, ⟨by decide, by decide⟩, by decide, by decide, ?_⟩
  intro qt
  rw [save_of_enabled qt jarWithExpired 100 rfl]
  rfl

/-! ## C2: shutdown -/

/-- C2 (violated by the code): `purgeSessionCookies` filters a local copy and
drops it, so the destructor persists the session cookies too.  On the jar
holding one cookie with a future expiry and one session cookie, the
destructor writes both cookies to the backing store, and a jar constructed on
that store and loaded holds the session cookie again. -/
theorem destructor_persists_session_cookie :
    (∀ jar : CookieJar, jar.purgeSessionCookies.1 = jar) ∧
    sessionCookie.isSessionCookie = true ∧
    (∀ qt : QtLib, (jarAtShutdown.destructor qt 100).m_cookieStorage =
      some (operatorWrite qt {} [persistentCookie, sessionCookie])) ∧
    ((CookieJar.new (jarAtShutdown.destructor demoQt 100).m_cookieStorage).load demoQt
        100).allCookies = [persistentCookie, sessionCookie] := by
  refine ⟨purgeSessionCookies_fst, by decide, ?_, by decide⟩
  intro qt
  unfold CookieJar.destructor
  simp only [purgeSessionCookies_fst]
  rw [save_of_enabled qt jarAtShutdown 100 rfl]
  rfl

/-! ## C3: deleting a cookie by name -/

/-- The loop of `deleteCookie` either leaves the jar alone or calls
`setCookiesFromUrl` with the list it was given. -/
theorem deleteCookieLoop_cases (qt : QtLib) (jar : CookieJar) (name url : String) (now : Int)
    (cookiesList : List QNetworkCookie) (i : Nat) :
    CookieJar.deleteCookieLoop qt jar name url now cookiesList i = jar ∨
    CookieJar.deleteCookieLoop qt jar name url now cookiesList i =
      (jar.setCookiesFromUrl qt cookiesList (QUrl.ofString url) now).1 := by
  induction i with
  | zero => left; rfl
  | succ i ih =>
    simp only [CookieJar.deleteCookieLoop]
    split
    · right; rfl
    · exact ih

/-- `deleteCookie` either leaves the jar alone or writes back `cookies(url)`
as it read it. -/
theorem deleteCookie_cases (qt : QtLib) (jar : CookieJar) (name url : String) (now : Int) :
    jar.deleteCookie qt name url now = jar ∨
    jar.deleteCookie qt name url now =
      (jar.setCookiesFromUrl qt (jar.cookies url) (QUrl.ofString url) now).1 := by
  simp only [CookieJar.deleteCookie]
  split
  · exact deleteCookieLoop_cases qt jar name url now _ _
  · left; rfl

/-- C3 (violated by the code): `deleteCookie` sets the expiration date on a
local copy of the matching cookie and then writes back the unmodified list.
On the enabled jar holding the cookie `p` (expiring at 200) and a session
cookie, at time 100: after `deleteCookie("p", "http://x.com/")` the collection
is what it was, and after a save and a load `cookiesForUrl("http://x.com/")`
still returns the cookie named `p`. -/
theorem deleteCookie_keeps_named_cookie :
    persistentCookie.name = "p" ∧
    (jarAtShutdown.deleteCookie demoQt "p" "http://x.com/" 100).allCookies =
      [persistentCookie, sessionCookie] ∧
    ((((jarAtShutdown.deleteCookie demoQt "p" "http://x.com/" 100).save demoQt 100).load
        demoQt 100).cookiesForUrl (QUrl.ofString "http://x.com/")) =
      [persistentCookie, sessionCookie] ∧
    (∀ (qt : QtLib) (jar : CookieJar) (name url : String) (now : Int),
      jar.deleteCookie qt name url now = jar ∨
      jar.deleteCookie qt name url now =
        (jar.setCookiesFromUrl qt (jar.cookies url) (QUrl.ofString url) now).1) := by
  exact ⟨by decide, by decide, by decide, deleteCookie_cases⟩

/-! ## C4: uniqueness of the identity key -/

/-- Replacing or appending a cookie keeps the identity keys distinct. -/
theorem insertCookie_nodup (l : List QNetworkCookie) (c : QNetworkCookie)
    (h : (l.map QNetworkCookie.key).Nodup) :
    ((QNetworkCookieJar.insertCookie l c).map QNetworkCookie.key).Nodup := by
  unfold QNetworkCookieJar.insertCookie
  split
  · have hmap : (l.map (fun e => if e.key == c.key then c else e)).map QNetworkCookie.key
        = l.map QNetworkCookie.key := by
      rw [List.map_map]
      apply List.map_congr_left
      intro e _
      by_cases hk : e.key = c.key
      · simp [hk]
      · simp [hk]
    rw [hmap]
    exact h
  · rename_i hany
    rw [List.map_append, List.map_singleton]
    refine List.Nodup.append h (List.nodup_singleton _) ?_
    rw [List.disjoint_singleton]
    intro hmem
    apply hany
    obtain ⟨e, he, hke⟩ := List.mem_map.mp hmem
    exact List.any_eq_true.mpr ⟨e, he, by simp [hke]⟩

/-- The base class insertion of a whole list keeps the identity keys
distinct. -/
theorem base_setCookiesFromUrl_nodup (cookieList : List QNetworkCookie) (url : QUrl) :
    ∀ allCookies : List QNetworkCookie, (allCookies.map QNetworkCookie.key).Nodup →
      (((QNetworkCookieJar.setCookiesFromUrl allCookies cookieList url).1).map
        QNetworkCookie.key).Nodup := by
  unfold QNetworkCookieJar.setCookiesFromUrl
  induction cookieList with
  | nil => intro l h; exact h
  | cons c rest ih =>
    intro l h
    rw [List.foldl_cons]
    exact ih _ (insertCookie_nodup l _ h)

/-- The cookies in memory after `CookieJar::setCookiesFromUrl`: those the base
class computes when the jar is enabled, the old ones otherwise. -/
theorem setCookiesFromUrl_allCookies (qt : QtLib) (jar : CookieJar)
    (cookieList : List QNetworkCookie) (url : QUrl) (now : Int) :
    (jar.setCookiesFromUrl qt cookieList url now).1.allCookies =
      if jar.m_enabled then
        (QNetworkCookieJar.setCookiesFromUrl jar.allCookies cookieList url).1
      else jar.allCookies := by
  unfold CookieJar.setCookiesFromUrl CookieJar.isEnabled
  cases jar.m_enabled
  · simp
  · simp only [if_true]
    split
    · simp [save_allCookies, CookieJar.setAllCookies]
    · simp [CookieJar.setAllCookies]

/-- One `setCookiesFromUrl` call keeps the identity keys distinct. -/
theorem setCookiesFromUrl_nodup (qt : QtLib) (jar : CookieJar)
    (cookieList : List QNetworkCookie) (url : QUrl) (now : Int)
    (h : (jar.allCookies.map QNetworkCookie.key).Nodup) :
    ((jar.setCookiesFromUrl qt cookieList url now).1.allCookies.map
      QNetworkCookie.key).Nodup := by
  rw [setCookiesFromUrl_allCookies]
  split
  · exact base_setCookiesFromUrl_nodup cookieList url _ h
  · exact h

/-- A sequence of `setCookiesFromUrl` calls keeps the identity keys
distinct. -/
theorem setCookiesFromUrlSeq_nodup (qt : QtLib)
    (calls : List (List QNetworkCookie × QUrl × Int)) :
    ∀ jar : CookieJar, (jar.allCookies.map QNetworkCookie.key).Nodup →
      ((jar.setCookiesFromUrlSeq qt calls).allCookies.map QNetworkCookie.key).Nodup := by
  induction calls with
  | nil => intro jar h; exact h
  | cons call rest ih =>
    intro jar h
    exact ih _ (setCookiesFromUrl_nodup qt jar call.1 call.2.1 call.2.2 h)

/-- C4: starting from the jar the constructor yields (empty, enabled, on any
backing store), after any finite sequence of `setCookiesFromUrl` calls, with
arbitrary cookie lists and urls, the identity keys (name, domain, path) of the
stored cookies are pairwise distinct. -/
theorem setCookiesFromUrl_unique_keys (qt : QtLib) (storage : Option QDataStream)
    (calls : List (List QNetworkCookie × QUrl × Int)) :
    (((CookieJar.new storage).setCookiesFromUrlSeq qt calls).allCookies.map
      QNetworkCookie.key).Nodup :=
  setCookiesFromUrlSeq_nodup qt calls (CookieJar.new storage) List.nodup_nil

/-! ## C5: the disabled jar, url-based calls -/

/-- C5: on a disabled jar `cookiesForUrl` returns the empty list for every
url, and `setCookiesFromUrl` returns false and hands back the jar as it was,
cookies in memory and backing store included. -/
theorem disabled_cookiesForUrl_setCookiesFromUrl (qt : QtLib) (jar : CookieJar)
    (cookieList : List QNetworkCookie) (url : QUrl) (now : Int)
    (h : jar.m_enabled = false) :
    jar.cookiesForUrl url = [] ∧
    jar.setCookiesFromUrl qt cookieList url now = (jar, false) := by
  simp [CookieJar.cookiesForUrl, CookieJar.setCookiesFromUrl, CookieJar.isEnabled, h]

/-- Witness for C5: the disabled jar holds a cookie that matches
`http://x.com/`, yet `cookiesForUrl` is empty and `setCookiesFromUrl` changes
nothing. -/
theorem disabled_cookiesForUrl_setCookiesFromUrl_witness :
    QNetworkCookieJar.cookiesForUrl jarDisabled.allCookies (QUrl.ofString "http://x.com/")
      = [sessionCookie] ∧
    jarDisabled.cookiesForUrl (QUrl.ofString "http://x.com/") = [] ∧
    jarDisabled.setCookiesFromUrl demoQt [persistentCookie] (QUrl.ofString "http://x.com/") 100
      = (jarDisabled, false) :=
  ⟨by decide,
    disabled_cookiesForUrl_setCookiesFromUrl demoQt jarDisabled [persistentCookie]
      (QUrl.ofString "http://x.com/") 100 rfl⟩

/-! ## C6: the disabled jar, readers by name and url -/

/-- With a url and a disabled jar, the four readers return empty results. -/
theorem disabled_readers_with_url (qt : QtLib) (jar : CookieJar) (name url : String)
    (h : jar.m_enabled = false) (hurl : qIsEmpty url = false) :
    jar.cookies url = [] ∧ jar.cookiesToMap qt url = [] ∧
    jar.cookie name url = {} ∧ jar.cookieToMap qt name url = [] := by
  have hc : jar.cookies url = [] := by
    simp [CookieJar.cookies, hurl, CookieJar.cookiesForUrl, CookieJar.isEnabled, h]
  have hm : jar.cookiesToMap qt url = [] := by
    simp [CookieJar.cookiesToMap, hc, CookieJar.cookiesToMapLoop]
  refine ⟨hc, hm, ?_, ?_⟩
  · simp [CookieJar.cookie, hc, CookieJar.cookieLoop]
  · simp [CookieJar.cookieToMap, hm, CookieJar.cookieToMapLoop]

/-- C6 (violated by the code): `cookies(url)` returns `allCookies()` when the
url is empty without asking `isEnabled()`, so on the disabled jar that holds
the session cookie `a`, the four readers called without a url return that
cookie, resp. its record; with a url they do return empty results. -/
theorem disabled_readers_without_url_return_cookies :
    jarDisabled.m_enabled = false ∧
    jarDisabled.cookies "" = [sessionCookie] ∧
    jarDisabled.cookiesToMap demoQt "" =
      [[("domain", QVariant.string "x.com"), ("name", QVariant.string "a"),
        ("value", QVariant.string "1"), ("path", QVariant.string "/"),
        ("httponly", QVariant.bool false), ("secure", QVariant.bool false)]] ∧
    jarDisabled.cookie "a" "" = sessionCookie ∧
    jarDisabled.cookieToMap demoQt "a" "" =
      [("domain", QVariant.string "x.com"), ("name", QVariant.string "a"),
        ("value", QVariant.string "1"), ("path", QVariant.string "/"),
        ("httponly", QVariant.bool false), ("secure", QVariant.bool false)] ∧
    (∀ (qt : QtLib) (jar : CookieJar) (name url : String),
      jar.m_enabled = false → qIsEmpty url = false →
      jar.cookies url = [] ∧ jar.cookiesToMap qt url = [] ∧
      jar.cookie name url = {} ∧ jar.cookieToMap qt name url = []) := by
  exact ⟨by decide, by decide, by decide, by decide, by decide, disabled_readers_with_url⟩

/-! ## C7: deleting all cookies -/

/-- With a url, `deleteCookies` leaves the cookies in memory as they were: the
base class is handed an empty list and has nothing to add or replace. -/
theorem deleteCookies_with_url_allCookies (qt : QtLib) (jar : CookieJar) (url : String)
    (now : Int) (hurl : qIsEmpty url = false) :
    (jar.deleteCookies qt url now).allCookies = jar.allCookies := by
  unfold CookieJar.deleteCookies
  split
  · simp only [hurl, Bool.false_eq_true, if_false]
    rw [setCookiesFromUrl_allCookies]
    split <;> rfl
  · rfl

/-- Without a url, `deleteCookies` on an enabled jar empties the cookies in
memory. -/
theorem deleteCookies_without_url_allCookies (qt : QtLib) (jar : CookieJar) (now : Int)
    (h : jar.m_enabled = true) :
    (jar.deleteCookies qt "" now).allCookies = [] := by
  have hempty : qIsEmpty "" = true := by decide
  simp [CookieJar.deleteCookies, CookieJar.clearCookies, CookieJar.isEnabled, h,
    CookieJar.setAllCookies, hempty]

/-- C7 (violated by the code for a non-empty url): `deleteCookies(url)` calls
`setCookiesFromUrl` with the empty list, which removes nothing.  On the
enabled jar whose two cookies are both visible to `http://x.com/`, the
collection after `deleteCookies("http://x.com/")` still holds both and
`cookiesForUrl` still returns both.  Without a url the collection is emptied,
as claimed. -/
theorem deleteCookies_with_url_removes_nothing :
    QNetworkCookieJar.cookiesForUrl jarAtShutdown.allCookies (QUrl.ofString "http://x.com/")
      = [persistentCookie, sessionCookie] ∧
    (jarAtShutdown.deleteCookies demoQt "http://x.com/" 100).allCookies
      = [persistentCookie, sessionCookie] ∧
    (jarAtShutdown.deleteCookies demoQt "http://x.com/" 100).cookiesForUrl
        (QUrl.ofString "http://x.com/") = [persistentCookie, sessionCookie] ∧
    (∀ (qt : QtLib) (jar : CookieJar) (url : String) (now : Int), qIsEmpty url = false →
      (jar.deleteCookies qt url now).allCookies = jar.allCookies) ∧
    (∀ (qt : QtLib) (jar : CookieJar) (now : Int), jar.m_enabled = true →
      (jar.deleteCookies qt "" now).allCookies = []) := by
  exact ⟨by decide, by decide, by decide, deleteCookies_with_url_allCookies,
    deleteCookies_without_url_allCookies⟩

/-! ## Lemmas on the serialisation operators -/

/-- Writing the raw forms of a list of cookies appends one byte array per
cookie, in order. -/
theorem foldl_writeBytes (f : QNetworkCookie → String) (l : List QNetworkCookie) :
    ∀ s : QDataStream,
      l.foldl (fun s c => s.writeBytes (f c)) s =
        { s with fields := s.fields ++ l.map (fun c => Field.bytes (f c)) } := by
  induction l with
  | nil => intro s; simp
  | cons c rest ih =>
    intro s
    rw [List.foldl_cons, ih]
    simp [QDataStream.writeBytes]

/-- The stream `operator<<` produces from a fresh stream: the version, the
count modulo 2^32, one byte array per cookie. -/
theorem operatorWrite_fresh (qt : QtLib) (l : List QNetworkCookie) :
    operatorWrite qt {} l =
      { fields := Field.u32 1 :: Field.u32 (l.length % 2 ^ 32) ::
          l.map (fun c => Field.bytes (qt.toRawForm c)),
        status := Status.Ok } := by
  unfold operatorWrite
  simp only [foldl_writeBytes]
  simp [QDataStream.writeU32, COOKIE_JAR_VERSION]

/-- The read loop on a stream that starts with as many byte arrays as there
are iterations left decodes all of them, in order, and stops in front of what
follows them. -/
theorem operatorReadLoop_entries (qt : QtLib) (st : Status) (rest : List Field) :
    ∀ (es : List String) (acc : List QNetworkCookie),
      operatorReadLoop qt es.length
          { fields := es.map Field.bytes ++ rest, status := st } acc =
        ({ fields := rest, status := st }, acc ++ (es.map qt.parseCookies).flatten) := by
  intro es
  induction es with
  | nil => intro acc; simp [operatorReadLoop]
  | cons e es ih =>
    intro acc
    simp only [List.length_cons, operatorReadLoop, List.map_cons, List.cons_append,
      QDataStream.readBytes]
    split
    · rename_i hend
      simp only [QDataStream.atEnd, List.isEmpty_iff, List.append_eq_nil] at hend
      obtain ⟨h1, h2⟩ := hend
      have hes : es = [] := by simpa using h1
      subst hes; subst h2
      simp
    · rw [ih]
      simp

/-- `operator>>` on a stream with the right version, a count and that many
entries. -/
theorem operatorRead_entries (qt : QtLib) (stream : QDataStream) (list : List QNetworkCookie)
    (es : List String) (rest : List Field) (hcount : es.length < 2 ^ 32)
    (hfields : stream.fields =
      Field.u32 1 :: Field.u32 es.length :: (es.map Field.bytes ++ rest)) :
    operatorRead qt stream list =
      ({ fields := rest, status := stream.status }, (es.map qt.parseCookies).flatten) := by
  have h := operatorReadLoop_entries qt stream.status rest es []
  simp only [operatorRead, QDataStream.readU32, hfields, qListClear, COOKIE_JAR_VERSION]
  rw [Nat.mod_eq_of_lt hcount]
  simpa using h

/-- Decoding the raw forms of cookies that each parse back to themselves gives
the cookies back. -/
theorem flatten_parse_toRawForm (qt : QtLib) (l : List QNetworkCookie)
    (hraw : ∀ c ∈ l, qt.parseCookies (qt.toRawForm c) = [c]) :
    ((l.map qt.toRawForm).map qt.parseCookies).flatten = l := by
  induction l with
  | nil => rfl
  | cons c rest ih =>
    have hc := hraw c (List.mem_cons_self c rest)
    have hrest := ih (fun d hd => hraw d (List.mem_cons_of_mem c hd))
    simp only [List.map_cons, List.flatten_cons, hc, hrest]
    rfl

/-- Reading what `operator<<` wrote for a list gives the list back. -/
theorem operatorRead_operatorWrite (qt : QtLib) (l list : List QNetworkCookie)
    (hlen : l.length < 2 ^ 32)
    (hraw : ∀ c ∈ l, qt.parseCookies (qt.toRawForm c) = [c]) :
    operatorRead qt (operatorWrite qt {} l) list = ({}, l) := by
  have h := operatorRead_entries qt (operatorWrite qt {} l) list (l.map qt.toRawForm) []
    (by rw [List.length_map]; exact hlen)
    (by rw [operatorWrite_fresh, Nat.mod_eq_of_lt hlen]; simp)
  rw [h, flatten_parse_toRawForm qt l hraw, operatorWrite_fresh]

/-- `load` on an enabled jar puts the decoded backing store in memory. -/
theorem load_allCookies_of_enabled (qt : QtLib) (jar : CookieJar) (now : Int)
    (h : jar.m_enabled = true) :
    (jar.load qt now).allCookies = jar.storageValue qt := by
  simp only [CookieJar.load, CookieJar.isEnabled, h, if_true, purgeExpiredCookies_fst]
  split
  · rw [save_allCookies]; rfl
  · rfl

/-! ## C8: serialisation round trip -/

/-- C8: for a list `l` of fewer than 2^32 cookies whose raw forms each parse
back to exactly the cookie, `operator>>` applied to the stream `operator<<`
wrote for `l` yields `l`, whatever the target list held; hence on an enabled
jar holding `l`, `save` followed by `load` leaves `l` in memory, so that the
collections before and after agree in particular on the cookies not expired
at the time of the save. -/
theorem save_load_round_trip (qt : QtLib) (l list : List QNetworkCookie)
    (storage : Option QDataStream) (now now2 : Int)
    (hlen : l.length < 2 ^ 32)
    (hraw : ∀ c ∈ l, qt.parseCookies (qt.toRawForm c) = [c]) :
    (operatorRead qt (operatorWrite qt {} l) list).2 = l ∧
    (((CookieJar.mk l storage true).save qt now).load qt now2).allCookies = l ∧
    ((((CookieJar.mk l storage true).save qt now).load qt now2).allCookies.filter
        (fun c => !c.isExpiredAt now)) = l.filter (fun c => !c.isExpiredAt now) := by
  have hjar : (((CookieJar.mk l storage true).save qt now).load qt now2).allCookies = l := by
    rw [load_allCookies_of_enabled qt _ now2 (by rw [save_enabled]),
      save_of_enabled qt _ now rfl]
    simp only [CookieJar.storageValue]
    rw [operatorRead_operatorWrite qt l [] hlen hraw]
  refine ⟨?_, hjar, ?_⟩
  · rw [operatorRead_operatorWrite qt l list hlen hraw]
  · rw [hjar]

/-- Witness for C8: the three example cookies, with their Qt raw forms, go
through `operator<<` and `operator>>` and through `save` and `load`
unchanged. -/
theorem save_load_round_trip_witness :
    (operatorRead demoQt
        (operatorWrite demoQt {} [sessionCookie, expiredCookie, persistentCookie])
        [persistentCookie]).2 = [sessionCookie, expiredCookie, persistentCookie] ∧
    (((CookieJar.mk [sessionCookie, expiredCookie, persistentCookie] none true).save demoQt
        100).load demoQt 101).allCookies = [sessionCookie, expiredCookie, persistentCookie] ∧
    ((((CookieJar.mk [sessionCookie, expiredCookie, persistentCookie] none true).save demoQt
        100).load demoQt 101).allCookies.filter (fun c => !c.isExpiredAt 100)) =
      [sessionCookie, expiredCookie, persistentCookie].filter (fun c => !c.isExpiredAt 100) :=
  save_load_round_trip demoQt [sessionCookie, expiredCookie, persistentCookie]
    [persistentCookie] none 100 101 (by norm_num) (by decide)

/-! ## C9: version mismatch -/

/-- C9: on a stream whose first item is a version word other than
`COOKIE_JAR_VERSION`, `operator>>` yields the empty list whatever the target
list held and whatever follows the version; the rest of the stream is left
unread and the status of the stream is unchanged (no error is raised). -/
theorem operatorRead_version_mismatch (qt : QtLib) (stream : QDataStream)
    (list : List QNetworkCookie) (v : Nat) (rest : List Field)
    (hfields : stream.fields = Field.u32 v :: rest)
    (hv : v % 2 ^ 32 ≠ COOKIE_JAR_VERSION) :
    operatorRead qt stream list = ({ fields := rest, status := stream.status }, []) := by
  have hne : (v % 2 ^ 32 != COOKIE_JAR_VERSION) = true := bne_iff_ne.mpr hv
  simp only [operatorRead, QDataStream.readU32, hfields, qListClear]
  rw [if_pos hne]

/-- Witness for C9: version 2 in front of a well-formed body, a non-empty
target list. -/
theorem operatorRead_version_mismatch_witness :
    operatorRead demoQt
        { fields := [Field.u32 2, Field.u32 1, Field.bytes "a=1; domain=x.com; path=/"] }
        [expiredCookie] =
      ({ fields := [Field.u32 1, Field.bytes "a=1; domain=x.com; path=/"],
         status := Status.Ok }, []) :=
  operatorRead_version_mismatch demoQt
    { fields := [Field.u32 2, Field.u32 1, Field.bytes "a=1; domain=x.com; path=/"] }
    [expiredCookie] 2 [Field.u32 1, Field.bytes "a=1; domain=x.com; path=/"] rfl (by decide)

/-! ## C10: entries that do not parse -/

/-- C10: on a stream made of the version 1, a count `n` and `n` byte arrays
`es` (followed by anything), `operator>>` yields the concatenation, in order,
of `parseCookies` over the entries: an entry that parses to no cookie
contributes nothing and the entries after it are still decoded. -/
theorem operatorRead_concat_parseCookies (qt : QtLib) (stream : QDataStream)
    (list : List QNetworkCookie) (es : List String) (rest : List Field)
    (hcount : es.length < 2 ^ 32)
    (hfields : stream.fields =
      Field.u32 1 :: Field.u32 es.length :: (es.map Field.bytes ++ rest)) :
    (operatorRead qt stream list).2 = (es.map qt.parseCookies).flatten := by
  rw [operatorRead_entries qt stream list es rest hcount hfields]

/-- Witness for C10: three entries, the second one non-empty text that parses
to no cookie; the first and the third are decoded. -/
theorem operatorRead_concat_parseCookies_witness :
    demoQt.parseCookies "not a cookie" = [] ∧
    (operatorRead demoQt
        { fields := [Field.u32 1, Field.u32 3, Field.bytes "a=1; domain=x.com; path=/",
            Field.bytes "not a cookie",
            Field.bytes "p=3; expires=Thu, 01-Jan-1970 00:03:20 GMT; domain=x.com; path=/"] }
        [expiredCookie]).2 =
      (["a=1; domain=x.com; path=/", "not a cookie",
        "p=3; expires=Thu, 01-Jan-1970 00:03:20 GMT; domain=x.com; path=/"].map
          demoQt.parseCookies).flatten ∧
    (["a=1; domain=x.com; path=/", "not a cookie",
        "p=3; expires=Thu, 01-Jan-1970 00:03:20 GMT; domain=x.com; path=/"].map
          demoQt.parseCookies).flatten = [sessionCookie, persistentCookie] :=
  ⟨by decide,
    operatorRead_concat_parseCookies demoQt _ [expiredCookie]
      ["a=1; domain=x.com; path=/", "not a cookie",
        "p=3; expires=Thu, 01-Jan-1970 00:03:20 GMT; domain=x.com; path=/"] []
      (by norm_num) rfl,
    by decide⟩

/-! ## Lemmas on the readers -/

theorem getD_eq_getElem {α : Type} (l : List α) (i : Nat) (d : α) (hi : i < l.length) :
    l.getD i d = l[i] := by
  simp [List.getD, List.getElem?_eq_getElem hi]

theorem take_succ_reverse {α : Type} (l : List α) (i : Nat) (hi : i < l.length) :
    (l.take (i + 1)).reverse = l[i] :: (l.take i).reverse := by
  rw [List.take_succ, List.getElem?_eq_getElem hi]
  simp

/-- The loop of `cookiesToMap` appends the records of the cookies below the
index, last first, each built on the record of the pass before. -/
theorem cookiesToMapLoop_eq (qt : QtLib) (l : List QNetworkCookie) :
    ∀ (i : Nat) (m : QVariantMap) (result : List QVariantMap), i ≤ l.length →
      CookieJar.cookiesToMapLoop qt l i m result =
        result ++ recordsFrom qt m (l.take i).reverse := by
  intro i
  induction i with
  | zero => intro m result _; simp [CookieJar.cookiesToMapLoop, recordsFrom]
  | succ i ih =>
    intro m result hi
    have hi' : i < l.length := hi
    rw [CookieJar.cookiesToMapLoop, take_succ_reverse l i hi', recordsFrom]
    simp only [getD_eq_getElem l i default hi']
    rw [ih _ _ (by omega)]
    simp

/-- `cookiesToMap` returns the records of `cookies(url)` in reverse storage
order, each built on the record before it. -/
theorem cookiesToMap_eq (qt : QtLib) (jar : CookieJar) (url : String) :
    jar.cookiesToMap qt url = recordsFrom qt [] (jar.cookies url).reverse := by
  simp only [CookieJar.cookiesToMap]
  rw [cookiesToMapLoop_eq qt _ _ _ _ (le_refl _)]
  simp

/-! ## C11: the `expires` key of the records -/

/-- C11 (violated by the code): `cookiesToMap` declares its record once,
before the loop, so the `expires` key set for one cookie stays in the records
built after it.  On the jar holding a session cookie and, after it, a cookie
with an expiration date, the record built from the session cookie (the second
of the result) has an `expires` key, the date of the other cookie.  In general
the result is the chain `recordsFrom`, each record built on the one before. -/
theorem cookiesToMap_session_record_has_expires :
    sessionCookie.expirationDate = none ∧
    jarWithExpired.cookies "" = [sessionCookie, expiredCookie] ∧
    jarWithExpired.cookiesToMap demoQt "" =
      [[("domain", QVariant.string "x.com"), ("name", QVariant.string "b"),
        ("value", QVariant.string "2"), ("path", QVariant.string "/"),
        ("httponly", QVariant.bool false), ("secure", QVariant.bool false),
        ("expires", QVariant.string "Thu, 01 Jan 1970 00:00:50 GMT")],
       [("domain", QVariant.string "x.com"), ("name", QVariant.string "a"),
        ("value", QVariant.string "1"), ("path", QVariant.string "/"),
        ("httponly", QVariant.bool false), ("secure", QVariant.bool false),
        ("expires", QVariant.string "Thu, 01 Jan 1970 00:00:50 GMT")]] ∧
    ((jarWithExpired.cookiesToMap demoQt "").getD 1 []).hasKey "expires" = true ∧
    (∀ (qt : QtLib) (jar : CookieJar) (url : String),
      jar.cookiesToMap qt url = recordsFrom qt [] (jar.cookies url).reverse) := by
  exact ⟨by decide, by decide, by decide, by decide, cookiesToMap_eq⟩

theorem find?_eq_head?_filter {α : Type} (p : α → Bool) (l : List α) :
    l.find? p = (l.filter p).head? := by
  induction l with
  | nil => rfl
  | cons a l ih =>
    cases h : p a
    · rw [List.find?_cons_of_neg _ (by simp [h]), List.filter_cons_of_neg (by simp [h]), ih]
    · rw [List.find?_cons_of_pos _ h, List.filter_cons_of_pos h]; rfl

theorem find?_reverse_eq_getLast?_filter {α : Type} (p : α → Bool) (l : List α) :
    l.reverse.find? p = (l.filter p).getLast? := by
  rw [find?_eq_head?_filter, List.filter_reverse, List.head?_reverse]

theorem find?_map_replace_same (k : String) (v : QVariant) :
    ∀ m : List (String × QVariant), m.any (fun kv => kv.1 == k) = true →
      (m.map (fun kv => if kv.1 == k then (k, v) else kv)).find? (fun kv => kv.1 == k)
        = some (k, v) := by
  intro m
  induction m with
  | nil => intro h; simp at h
  | cons kv rest ih =>
    intro hany
    cases hk : (kv.1 == k)
    · have hrest : rest.any (fun kv => kv.1 == k) = true := by
        rw [List.any_cons, hk] at hany
        simpa using hany
      rw [List.map_cons]
      simp only [hk, Bool.false_eq_true, if_false]
      rw [List.find?_cons_of_neg _ (by simp [hk])]
      exact ih hrest
    · rw [List.map_cons]
      simp only [hk, if_true]
      rw [List.find?_cons_of_pos _ (by simp)]

theorem find?_map_replace_ne (k k' : String) (v : QVariant) (hne : k' ≠ k) :
    ∀ m : List (String × QVariant),
      (m.map (fun kv => if kv.1 == k then (k, v) else kv)).find? (fun kv => kv.1 == k')
        = m.find? (fun kv => kv.1 == k') := by
  have hkk : (k == k') = false := beq_eq_false_iff_ne.mpr (Ne.symm hne)
  intro m
  induction m with
  | nil => rfl
  | cons kv rest ih =>
    rw [List.map_cons]
    cases hk : (kv.1 == k)
    · simp only [Bool.false_eq_true, if_false]
      cases hk' : (kv.1 == k')
      · rw [List.find?_cons_of_neg _ (by simp [hk']), List.find?_cons_of_neg _ (by simp [hk']), ih]
      · simp only [List.find?_cons, hk']
    · simp only [if_true]
      have hk' : (kv.1 == k') = false := by
        rw [beq_iff_eq.mp hk]; exact hkk
      rw [List.find?_cons_of_neg _ (by simp [hkk]), List.find?_cons_of_neg _ (by simp [hk']), ih]

/-- Reading back the key just assigned. -/
theorem QVariantMap.get_set_same (m : QVariantMap) (k : String) (v : QVariant) :
    (m.set k v).get k = v := by
  by_cases hany : m.any (fun kv => kv.1 == k) = true
  · simp only [QVariantMap.set, hany, if_true, QVariantMap.get]
    rw [find?_map_replace_same k v m hany]
  · have hnone : m.find? (fun kv => kv.1 == k) = none := by
      rw [List.find?_eq_none]
      intro x hx hp
      exact hany (List.any_eq_true.mpr ⟨x, hx, hp⟩)
    simp only [QVariantMap.set, hany, if_false, QVariantMap.get, Bool.false_eq_true]
    rw [List.find?_append, hnone]
    simp

/-- Assigning a key leaves the other keys as they were. -/
theorem QVariantMap.get_set_ne (m : QVariantMap) (k k' : String) (v : QVariant)
    (hne : k' ≠ k) : (m.set k v).get k' = m.get k' := by
  have hkk : (k == k') = false := beq_eq_false_iff_ne.mpr (Ne.symm hne)
  by_cases hany : m.any (fun kv => kv.1 == k) = true
  · simp only [QVariantMap.set, hany, if_true, QVariantMap.get]
    rw [find?_map_replace_ne k k' v hne m]
  · simp only [QVariantMap.set, hany, if_false, QVariantMap.get, Bool.false_eq_true]
    rw [List.find?_append]
    have hlast : [(k, v)].find? (fun kv => kv.1 == k') = none := by
      rw [List.find?_cons_of_neg _ (by simp [hkk])]; rfl
    rw [hlast]
    simp



/-- The six keys every pass of `cookiesToMap` assigns hold the fields of the
cookie of that pass, whatever the record carried in. -/
theorem cookiesToMapStep_get (qt : QtLib) (m : QVariantMap) (c : QNetworkCookie) :
    (CookieJar.cookiesToMapStep qt m c).get "domain" = QVariant.string c.domain ∧
    (CookieJar.cookiesToMapStep qt m c).get "name" = QVariant.string c.name ∧
    (CookieJar.cookiesToMapStep qt m c).get "value" = QVariant.string c.value ∧
    (CookieJar.cookiesToMapStep qt m c).get "path" =
      QVariant.string (if qIsEmpty c.path then "/" else c.path) ∧
    (CookieJar.cookiesToMapStep qt m c).get "httponly" = QVariant.bool c.httpOnly ∧
    (CookieJar.cookiesToMapStep qt m c).get "secure" = QVariant.bool c.secure := by
  unfold CookieJar.cookiesToMapStep
  cases c.expirationDate <;> cases hp : qIsEmpty c.path <;>
    simp [QVariantMap.get_set_ne, QVariantMap.get_set_same]

/-- The loop of `cookie` returns the last cookie below the index that has the
name. -/
theorem cookieLoop_eq (l : List QNetworkCookie) (name : String) :
    ∀ i : Nat, i ≤ l.length →
      CookieJar.cookieLoop l name i =
        (((l.take i).reverse.find? (fun c => c.name == name)).getD {}) := by
  intro i
  induction i with
  | zero => intro _; simp [CookieJar.cookieLoop]
  | succ i ih =>
    intro hi
    have hi' : i < l.length := hi
    rw [CookieJar.cookieLoop, take_succ_reverse l i hi', getD_eq_getElem l i default hi']
    cases h : (l[i].name == name)
    · simp only [Bool.false_eq_true, if_false, List.find?_cons, h]
      exact ih (by omega)
    · simp [List.find?_cons, h]

/-- The loop of `cookieToMap` returns the last record below the index whose
`name` is the name. -/
theorem cookieToMapLoop_eq (l : List QVariantMap) (name : String) :
    ∀ i : Nat, i ≤ l.length →
      CookieJar.cookieToMapLoop l name i =
        (((l.take i).reverse.find? (fun r => (r.get "name").toString == name)).getD []) := by
  intro i
  induction i with
  | zero => intro _; simp [CookieJar.cookieToMapLoop]
  | succ i ih =>
    intro hi
    have hi' : i < l.length := hi
    rw [CookieJar.cookieToMapLoop, take_succ_reverse l i hi']
    simp only [getD_eq_getElem l i [] hi']
    cases h : ((QVariantMap.get l[i] "name").toString == name)
    · simp only [Bool.false_eq_true, if_false, List.find?_cons, h]
      exact ih (by omega)
    · simp [List.find?_cons, h]

/-- Looking up a name among the records of `cookiesToMap`, last record first,
and among the cookies they were built from, first cookie first, fails for both
or finds a record and the cookie it was built from. -/
theorem recordsFrom_find (qt : QtLib) (name : String) :
    ∀ (cs : List QNetworkCookie) (m : QVariantMap),
      ((recordsFrom qt m cs).reverse.find? (fun r => (r.get "name").toString == name) = none ∧
        cs.reverse.find? (fun c => c.name == name) = none) ∨
      ∃ (c : QNetworkCookie) (m' : QVariantMap),
        cs.reverse.find? (fun c => c.name == name) = some c ∧
        (recordsFrom qt m cs).reverse.find? (fun r => (r.get "name").toString == name) =
          some (CookieJar.cookiesToMapStep qt m' c) := by
  intro cs
  induction cs with
  | nil => intro m; left; exact ⟨rfl, rfl⟩
  | cons c cs ih =>
    intro m
    simp only [recordsFrom, List.reverse_cons, List.find?_append]
    rcases ih (CookieJar.cookiesToMapStep qt m c) with ⟨h1, h2⟩ | ⟨c0, m0, h1, h2⟩
    · rw [h1, h2]
      have hname : ((CookieJar.cookiesToMapStep qt m c).get "name").toString = c.name := by
        rw [(cookiesToMapStep_get qt m c).2.1]; rfl
      cases hp : (c.name == name)
      · left
        simp [List.find?_cons, hname, hp]
      · right
        exact ⟨c, m, by simp [List.find?_cons, hp], by simp [List.find?_cons, hname, hp]⟩
    · right
      exact ⟨c0, m0, by rw [h1]; rfl, by rw [h2]; rfl⟩

/-- `cookie` returns the last cookie of `cookies(url)` with the name, or the
default cookie. -/
theorem cookie_eq_lastWithName (jar : CookieJar) (name url : String) :
    jar.cookie name url = (lastWithName (jar.cookies url) name).getD {} := by
  simp only [CookieJar.cookie]
  rw [cookieLoop_eq _ _ _ (le_refl _), List.take_length, find?_reverse_eq_getLast?_filter]
  rfl

/-- `cookieToMap` returns the empty record when no cookie of `cookies(url)`
has the name, and otherwise a record built from the first cookie, in storage
order, that has it. -/
theorem cookieToMap_first_match (qt : QtLib) (jar : CookieJar) (name url : String) :
    ((jar.cookies url).find? (fun c => c.name == name) = none ∧
      jar.cookieToMap qt name url = []) ∨
    ∃ (c : QNetworkCookie) (m' : QVariantMap),
      (jar.cookies url).find? (fun c => c.name == name) = some c ∧
      jar.cookieToMap qt name url = CookieJar.cookiesToMapStep qt m' c := by
  simp only [CookieJar.cookieToMap]
  rw [cookieToMapLoop_eq _ _ _ (le_refl _), List.take_length, cookiesToMap_eq]
  rcases recordsFrom_find qt name (jar.cookies url).reverse [] with ⟨h1, h2⟩ | ⟨c, m', h1, h2⟩
  · left
    rw [List.reverse_reverse] at h2
    exact ⟨h2, by rw [h1]; rfl⟩
  · right
    rw [List.reverse_reverse] at h1
    exact ⟨c, m', h1, by rw [h2]; rfl⟩

/-! ## C12: lookup by name -/

/-- C12, counterexample: with two stored cookies named `a`, `cookie("a")`
returns the last one (domain `y.com`) while the record `cookieToMap("a")`
returns has the domain of the first one (`x.com`); and for a stored cookie
with an empty path the record has the path `/`, not the cookie's path. -/
theorem cookie_cookieToMap_disagree :
    (jarSameName.cookie "a" "" = otherSiteCookie ∧
      (jarSameName.cookieToMap demoQt "a" "").get "domain" = QVariant.string "x.com" ∧
      (jarSameName.cookieToMap demoQt "a" "").get "domain" ≠
        QVariant.string (jarSameName.cookie "a" "").domain) ∧
    (jarEmptyPath.cookie "a" "" = noPathCookie ∧
      (jarEmptyPath.cookieToMap demoQt "a" "").get "path" = QVariant.string "/" ∧
      (jarEmptyPath.cookieToMap demoQt "a" "").get "path" ≠
        QVariant.string (jarEmptyPath.cookie "a" "").path) := by
  decide

/-- C12, amended: `cookie(name, url)` returns the last cookie, in storage
order, of `cookies(url)` whose name is `name`, and the default cookie when
there is none; `cookieToMap(name, url)` returns the empty record when there is
none; and when exactly one cookie of `cookies(url)` has the name, `cookie`
returns it and the record of `cookieToMap` has its name, domain, value,
httponly and secure, and its path, or `/` when its path is empty. -/
theorem cookie_cookieToMap_select (qt : QtLib) (jar : CookieJar) (name url : String) :
    jar.cookie name url = (lastWithName (jar.cookies url) name).getD {} ∧
    (lastWithName (jar.cookies url) name = none →
      jar.cookie name url = {} ∧ jar.cookieToMap qt name url = []) ∧
    (∀ c : QNetworkCookie, (jar.cookies url).filter (fun d => d.name == name) = [c] →
      jar.cookie name url = c ∧
      (jar.cookieToMap qt name url).get "name" = QVariant.string c.name ∧
      (jar.cookieToMap qt name url).get "domain" = QVariant.string c.domain ∧
      (jar.cookieToMap qt name url).get "value" = QVariant.string c.value ∧
      (jar.cookieToMap qt name url).get "path" =
        QVariant.string (if qIsEmpty c.path then "/" else c.path) ∧
      (jar.cookieToMap qt name url).get "httponly" = QVariant.bool c.httpOnly ∧
      (jar.cookieToMap qt name url).get "secure" = QVariant.bool c.secure) := by
  refine ⟨cookie_eq_lastWithName jar name url, ?_, ?_⟩
  · intro hnone
    refine ⟨by rw [cookie_eq_lastWithName, hnone]; rfl, ?_⟩
    have hfilter : (jar.cookies url).filter (fun c => c.name == name) = [] := by
      simpa [lastWithName] using hnone
    rcases cookieToMap_first_match qt jar name url with ⟨_, h⟩ | ⟨c, m', hfind, _⟩
    · exact h
    · rw [find?_eq_head?_filter, hfilter] at hfind
      simp at hfind
  · intro c hc
    refine ⟨by rw [cookie_eq_lastWithName, lastWithName, hc]; rfl, ?_⟩
    rcases cookieToMap_first_match qt jar name url with ⟨hfind, _⟩ | ⟨c0, m', hfind, h⟩
    · rw [find?_eq_head?_filter, hc] at hfind
      simp at hfind
    · rw [find?_eq_head?_filter, hc] at hfind
      have hc0 : c0 = c := by simpa using hfind.symm
      subst hc0
      rw [h]
      have hg := cookiesToMapStep_get qt m' c0
      exact ⟨hg.2.1, hg.1, hg.2.2.1, hg.2.2.2.1, hg.2.2.2.2.1, hg.2.2.2.2.2⟩

/-- Witness for C12: in the jar holding `p` and `a`, exactly one cookie is
named `a`; `cookie` returns it and `cookieToMap` returns its record. -/
theorem cookie_cookieToMap_select_witness :
    jarAtShutdown.cookie "a" "" = sessionCookie ∧
    (jarAtShutdown.cookieToMap demoQt "a" "").get "name" = QVariant.string "a" ∧
    (jarAtShutdown.cookieToMap demoQt "a" "").get "domain" = QVariant.string "x.com" ∧
    (jarAtShutdown.cookieToMap demoQt "a" "").get "value" = QVariant.string "1" ∧
    (jarAtShutdown.cookieToMap demoQt "a" "").get "path" = QVariant.string "/" ∧
    (jarAtShutdown.cookieToMap demoQt "a" "").get "httponly" = QVariant.bool false ∧
    (jarAtShutdown.cookieToMap demoQt "a" "").get "secure" = QVariant.bool false :=
  (cookie_cookieToMap_select demoQt jarAtShutdown "a" "").2.2 sessionCookie (by decide)

/-! ## Lemmas on the adders -/

/-- `addCookie` is `setCookiesFromUrl` on the one-element list and the url
`addCookieUrl`. -/
theorem addCookie_eq (qt : QtLib) (jar : CookieJar) (c : QNetworkCookie) (url : String)
    (now : Int) :
    jar.addCookie qt c url now =
      if jar.m_enabled then
        (jar.setCookiesFromUrl qt [c] (CookieJar.addCookieUrl c url) now).1
      else jar := rfl

/-- `addCookieFromMap` passes the cookie of the record to `addCookie`, or
does nothing when the record gives none. -/
theorem addCookieFromMap_eq (qt : QtLib) (jar : CookieJar) (r : QVariantMap) (url : String)
    (now : Int) :
    jar.addCookieFromMap qt r url now =
      match cookieOfMap qt r with
      | some c => jar.addCookie qt c url now
      | none => jar := by
  simp only [CookieJar.addCookieFromMap, cookieOfMap]
  split <;> rfl

/-- `setCookiesFromUrl` never changes the enabled flag. -/
theorem setCookiesFromUrl_enabled (qt : QtLib) (jar : CookieJar)
    (cookieList : List QNetworkCookie) (url : QUrl) (now : Int) :
    (jar.setCookiesFromUrl qt cookieList url now).1.m_enabled = jar.m_enabled := by
  unfold CookieJar.setCookiesFromUrl CookieJar.isEnabled
  cases h : jar.m_enabled
  · simp [h]
  · simp only [if_true]
    split
    · simp [save_enabled, CookieJar.setAllCookies, h]
    · simp [CookieJar.setAllCookies, h]

/-- `addCookie` never changes the enabled flag. -/
theorem addCookie_enabled (qt : QtLib) (jar : CookieJar) (c : QNetworkCookie) (url : String)
    (now : Int) : (jar.addCookie qt c url now).m_enabled = jar.m_enabled := by
  rw [addCookie_eq]
  split
  · exact setCookiesFromUrl_enabled qt jar _ _ now
  · rfl

/-- The cookies in memory after `addCookie` on an enabled jar. -/
theorem addCookie_allCookies (qt : QtLib) (jar : CookieJar) (c : QNetworkCookie)
    (url : String) (now : Int) (h : jar.m_enabled = true) :
    (jar.addCookie qt c url now).allCookies =
      QNetworkCookieJar.insertCookie jar.allCookies (acceptedCookie url c) := by
  rw [addCookie_eq, h, if_pos rfl, setCookiesFromUrl_allCookies, h, if_pos rfl]
  rfl

/-- The loop of `addCookies` adds the cookies below the index, last first. -/
theorem addCookiesLoop_eq (qt : QtLib) (l : List QNetworkCookie) (url : String) (now : Int) :
    ∀ (i : Nat) (jar : CookieJar), i ≤ l.length →
      CookieJar.addCookiesLoop qt l url now i jar =
        (l.take i).reverse.foldl (fun j c => j.addCookie qt c url now) jar := by
  intro i
  induction i with
  | zero => intro jar _; simp [CookieJar.addCookiesLoop]
  | succ i ih =>
    intro jar hi
    have hi' : i < l.length := hi
    rw [CookieJar.addCookiesLoop, take_succ_reverse l i hi', getD_eq_getElem l i default hi',
      ih _ (by omega)]
    rfl

/-- `addCookies` adds the cookies of the list from the last to the first. -/
theorem addCookies_eq_foldl (qt : QtLib) (jar : CookieJar) (l : List QNetworkCookie)
    (url : String) (now : Int) :
    jar.addCookies qt l url now = l.reverse.foldl (fun j c => j.addCookie qt c url now) jar := by
  rw [CookieJar.addCookies, addCookiesLoop_eq qt l url now _ _ (le_refl _), List.take_length]

/-- The head of the list handed to `addCookies` is added last. -/
theorem addCookies_cons (qt : QtLib) (jar : CookieJar) (c : QNetworkCookie)
    (l : List QNetworkCookie) (url : String) (now : Int) :
    jar.addCookies qt (c :: l) url now =
      (jar.addCookies qt l url now).addCookie qt c url now := by
  rw [addCookies_eq_foldl, addCookies_eq_foldl, List.reverse_cons, List.foldl_append]
  rfl

/-- `addCookies` never changes the enabled flag. -/
theorem addCookies_enabled (qt : QtLib) (jar : CookieJar) (l : List QNetworkCookie)
    (url : String) (now : Int) : (jar.addCookies qt l url now).m_enabled = jar.m_enabled := by
  induction l with
  | nil => rfl
  | cons c l ih => rw [addCookies_cons, addCookie_enabled, ih]

/-- The loop of `addCookiesFromMap` adds the records below the index, last
first. -/
theorem addCookiesFromMapLoop_eq (qt : QtLib) (l : List QVariantMap) (url : String)
    (now : Int) :
    ∀ (i : Nat) (jar : CookieJar), i ≤ l.length →
      CookieJar.addCookiesFromMapLoop qt l url now i jar =
        (l.take i).reverse.foldl (fun j r => j.addCookieFromMap qt r url now) jar := by
  intro i
  induction i with
  | zero => intro jar _; simp [CookieJar.addCookiesFromMapLoop]
  | succ i ih =>
    intro jar hi
    have hi' : i < l.length := hi
    rw [CookieJar.addCookiesFromMapLoop, take_succ_reverse l i hi',
      getD_eq_getElem l i [] hi', ih _ (by omega)]
    rfl

/-- Adding records one by one is adding the cookies of the records that give
one. -/
theorem foldl_addCookieFromMap (qt : QtLib) (url : String) (now : Int) :
    ∀ (rs : List QVariantMap) (jar : CookieJar),
      rs.foldl (fun j r => j.addCookieFromMap qt r url now) jar =
        (rs.filterMap (cookieOfMap qt)).foldl (fun j c => j.addCookie qt c url now) jar := by
  intro rs
  induction rs with
  | nil => intro jar; rfl
  | cons r rs ih =>
    intro jar
    rw [List.foldl_cons, ih, addCookieFromMap_eq]
    cases h : cookieOfMap qt r
    · rw [List.filterMap_cons_none h]
    · rw [List.filterMap_cons_some h, List.foldl_cons]

/-- `addCookiesFromMap` is `addCookies` on the cookies of the records that
give one. -/
theorem addCookiesFromMap_eq_addCookies (qt : QtLib) (jar : CookieJar)
    (recs : List QVariantMap) (url : String) (now : Int) :
    jar.addCookiesFromMap qt recs url now =
      jar.addCookies qt (recs.filterMap (cookieOfMap qt)) url now := by
  rw [CookieJar.addCookiesFromMap, addCookiesFromMapLoop_eq qt recs url now _ _ (le_refl _),
    List.take_length, foldl_addCookieFromMap, addCookies_eq_foldl, List.filterMap_reverse]

/-- After an insertion, every stored cookie with the key of the inserted
cookie is the inserted cookie. -/
theorem insertCookie_same_key (s : List QNetworkCookie) (x e : QNetworkCookie)
    (he : e ∈ QNetworkCookieJar.insertCookie s x) (hk : e.key = x.key) : e = x := by
  unfold QNetworkCookieJar.insertCookie at he
  split at he
  · obtain ⟨d, _, hd⟩ := List.mem_map.mp he
    by_cases hdk : d.key = x.key
    · simpa [hdk] using hd.symm
    · have hde : d = e := by simpa [hdk] using hd
      exact absurd (hde ▸ hk) hdk
  · rename_i hany
    rcases List.mem_append.mp he with hs | hx
    · exact absurd (List.any_eq_true.mpr ⟨e, hs, by simp [hk]⟩) hany
    · simpa using hx

/-- After an insertion, every stored cookie with another key was stored
before. -/
theorem insertCookie_other_key (s : List QNetworkCookie) (x e : QNetworkCookie)
    (he : e ∈ QNetworkCookieJar.insertCookie s x) (hk : e.key ≠ x.key) : e ∈ s := by
  unfold QNetworkCookieJar.insertCookie at he
  split at he
  · obtain ⟨d, hd, hde⟩ := List.mem_map.mp he
    by_cases hdk : d.key = x.key
    · have hxe : x = e := by simpa [hdk] using hde
      exact absurd (hxe ▸ rfl) hk
    · have : d = e := by simpa [hdk] using hde
      exact this ▸ hd
  · rcases List.mem_append.mp he with hs | hx
    · exact hs
    · have hex : e = x := by simpa using hx
      exact absurd (hex ▸ rfl) hk

/-- The inserted cookie is stored. -/
theorem mem_insertCookie_self (s : List QNetworkCookie) (x : QNetworkCookie) :
    x ∈ QNetworkCookieJar.insertCookie s x := by
  unfold QNetworkCookieJar.insertCookie
  split
  · rename_i hany
    obtain ⟨d, hd, hdk⟩ := List.any_eq_true.mp hany
    exact List.mem_map.mpr ⟨d, hd, by simp only [hdk, if_true]⟩
  · exact List.mem_append.mpr (Or.inr (List.mem_singleton.mpr rfl))

/-- A key that is stored stays stored through an insertion. -/
theorem insertCookie_keeps_keys (s : List QNetworkCookie) (x e : QNetworkCookie)
    (he : e ∈ s) : ∃ e' ∈ QNetworkCookieJar.insertCookie s x, e'.key = e.key := by
  by_cases hk : e.key = x.key
  · exact ⟨x, mem_insertCookie_self s x, hk.symm⟩
  · refine ⟨e, ?_, rfl⟩
    unfold QNetworkCookieJar.insertCookie
    split
    · exact List.mem_map.mpr ⟨e, he, by simp [hk]⟩
    · exact List.mem_append.mpr (Or.inl he)

/-- After `addCookies` on an enabled jar, a stored cookie that has the key of
an input cookie is the first input cookie with that key, as accepted. -/
theorem addCookies_stored_is_first (qt : QtLib) (jar : CookieJar) (url : String) (now : Int)
    (h : jar.m_enabled = true) :
    ∀ (l : List QNetworkCookie) (e : QNetworkCookie),
      e ∈ (jar.addCookies qt l url now).allCookies →
      ∀ c : QNetworkCookie,
        l.find? (fun d => (acceptedCookie url d).key == e.key) = some c →
        e = acceptedCookie url c := by
  intro l
  induction l with
  | nil => intro e _ c hc; simp at hc
  | cons d l ih =>
    intro e he c hc
    rw [addCookies_cons, addCookie_allCookies qt _ d url now
      (by rw [addCookies_enabled]; exact h)] at he
    by_cases hk : (acceptedCookie url d).key = e.key
    · rw [List.find?_cons_of_pos _ (by simp [hk])] at hc
      have hdc : d = c := by simpa using hc
      rw [← hdc]
      exact insertCookie_same_key _ _ _ he hk.symm
    · rw [List.find?_cons_of_neg _ (by simp [hk])] at hc
      exact ih e (insertCookie_other_key _ _ _ he (fun h' => hk h'.symm)) c hc

/-- After `addCookies` on an enabled jar, the key of every input cookie, as
accepted, is stored. -/
theorem addCookies_key_stored (qt : QtLib) (jar : CookieJar) (url : String) (now : Int)
    (h : jar.m_enabled = true) :
    ∀ (l : List QNetworkCookie) (c : QNetworkCookie), c ∈ l →
      ∃ e ∈ (jar.addCookies qt l url now).allCookies, e.key = (acceptedCookie url c).key := by
  intro l
  induction l with
  | nil => intro c hc; simp at hc
  | cons d l ih =>
    intro c hc
    rw [addCookies_cons, addCookie_allCookies qt _ d url now
      (by rw [addCookies_enabled]; exact h)]
    rcases List.mem_cons.mp hc with hcd | hcl
    · rw [hcd]
      exact ⟨_, mem_insertCookie_self _ _, rfl⟩
    · obtain ⟨e, he, hek⟩ := ih c hcl
      obtain ⟨e', he', hek'⟩ := insertCookie_keeps_keys _ (acceptedCookie url d) e he
      exact ⟨e', he', hek'.trans hek⟩

/-! ## C13: duplicates in a bulk add -/

/-- C13, counterexample: `addCookies` and `addCookiesFromMap` on the empty
enabled jar, with two cookies of the same identity key, value `1` first and
value `2` second: the cookie stored afterwards is the one with value `1`, the
one that occurs earlier in the input. -/
theorem addCookies_later_duplicate_loses :
    sessionCookie.key = laterValueCookie.key ∧
    sessionCookie.value = "1" ∧ laterValueCookie.value = "2" ∧
    ((CookieJar.new none).addCookies demoQt [sessionCookie, laterValueCookie] ""
        100).allCookies = [sessionCookie] ∧
    ((CookieJar.new none).addCookiesFromMap demoQt [recordA1, recordA2] ""
        100).allCookies = [sessionCookie] := by
  decide

/-- C13, amended: after `addCookies(list, url)` on an enabled jar, every
stored cookie that has the identity key of an input cookie (as accepted, that
is with the url's host for an empty domain) is the first cookie of the input
with that key, and every input key is stored: the duplicate that occurs
earlier in the input wins.  `addCookiesFromMap` is `addCookies` on the cookies
of the records it accepts, so the same holds for it. -/
theorem addCookies_first_duplicate_wins (qt : QtLib) (jar : CookieJar)
    (l : List QNetworkCookie) (recs : List QVariantMap) (url : String) (now : Int)
    (h : jar.m_enabled = true) :
    (∀ e ∈ (jar.addCookies qt l url now).allCookies, ∀ c : QNetworkCookie,
      l.find? (fun d => (acceptedCookie url d).key == e.key) = some c →
      e = acceptedCookie url c) ∧
    (∀ c ∈ l, ∃ e ∈ (jar.addCookies qt l url now).allCookies,
      e.key = (acceptedCookie url c).key) ∧
    jar.addCookiesFromMap qt recs url now =
      jar.addCookies qt (recs.filterMap (cookieOfMap qt)) url now :=
  ⟨addCookies_stored_is_first qt jar url now h l, addCookies_key_stored qt jar url now h l,
    addCookiesFromMap_eq_addCookies qt jar recs url now⟩

/-- Witness for C13: the two cookies of the counterexample, added to the empty
enabled jar. -/
theorem addCookies_first_duplicate_wins_witness :
    (∀ e ∈ ((CookieJar.new none).addCookies demoQt [sessionCookie, laterValueCookie] ""
        100).allCookies, ∀ c : QNetworkCookie,
      [sessionCookie, laterValueCookie].find?
        (fun d => (acceptedCookie "" d).key == e.key) = some c →
      e = acceptedCookie "" c) ∧
    (∀ c ∈ [sessionCookie, laterValueCookie],
      ∃ e ∈ ((CookieJar.new none).addCookies demoQt [sessionCookie, laterValueCookie] ""
        100).allCookies, e.key = (acceptedCookie "" c).key) ∧
    (CookieJar.new none).addCookiesFromMap demoQt [recordA1, recordA2] "" 100 =
      (CookieJar.new none).addCookies demoQt
        ([recordA1, recordA2].filterMap (cookieOfMap demoQt)) "" 100 :=
  addCookies_first_duplicate_wins demoQt (CookieJar.new none)
    [sessionCookie, laterValueCookie] [recordA1, recordA2] "" 100 rfl

/-! ## C14: records with missing fields -/

theorem qIsEmpty_eq_true_iff (s : String) : qIsEmpty s = true ↔ s = "" := by
  unfold qIsEmpty
  rw [List.isEmpty_iff, String.ext_iff]

theorem qIsEmpty_eq_false_iff (s : String) : qIsEmpty s = false ↔ s ≠ "" := by
  rw [Ne, ← qIsEmpty_eq_true_iff]
  cases qIsEmpty s <;> simp

theorem isNull_eq_false_iff (v : QVariant) : v.isNull = false ↔ v ≠ QVariant.invalid := by
  cases v <;> simp [QVariant.isNull]

/-- `addCookieFromMap` builds a cookie exactly from the records that have the
required fields. -/
theorem cookieOfMap_isSome_iff (qt : QtLib) (r : QVariantMap) :
    (cookieOfMap qt r).isSome = true ↔ recordHasRequiredFields r := by
  unfold recordHasRequiredFields
  rw [← isNull_eq_false_iff, ← isNull_eq_false_iff, ← isNull_eq_false_iff,
    ← qIsEmpty_eq_false_iff, ← qIsEmpty_eq_false_iff]
  simp only [cookieOfMap]
  split
  · rename_i hc
    simp only [Bool.and_eq_true, Bool.not_eq_true'] at hc
    simp only [Option.isSome_some, true_iff]
    exact ⟨⟨hc.1.1.1.1, hc.1.1.1.2⟩, ⟨hc.1.1.2, hc.1.2⟩, hc.2⟩
  · rename_i hc
    simp only [Bool.and_eq_true, Bool.not_eq_true'] at hc
    simp only [Option.isSome_none, Bool.false_eq_true, false_iff]
    intro h
    exact hc ⟨⟨⟨⟨h.1.1, h.1.2⟩, h.2.1.1⟩, h.2.1.2⟩, h.2.2⟩

/-- C14: `addCookieFromMap(record, url)` calls `addCookie` (with the cookie
built from the record) exactly when the record has a non-empty domain, a
non-empty name and a present value; for any other record it returns the jar as
it was, cookies in memory and backing store included, and nothing else
happens. -/
theorem addCookieFromMap_required_fields (qt : QtLib) (jar : CookieJar) (r : QVariantMap)
    (url : String) (now : Int) :
    (recordHasRequiredFields r →
      ∃ c : QNetworkCookie, cookieOfMap qt r = some c ∧
        c.domain = (r.get "domain").toString ∧ c.name = (r.get "name").toString ∧
        c.value = (r.get "value").toString ∧
        jar.addCookieFromMap qt r url now = jar.addCookie qt c url now) ∧
    (¬ recordHasRequiredFields r →
      cookieOfMap qt r = none ∧ jar.addCookieFromMap qt r url now = jar) := by
  constructor
  · intro h
    have hsome := (cookieOfMap_isSome_iff qt r).mpr h
    obtain ⟨c, hc⟩ := Option.isSome_iff_exists.mp hsome
    refine ⟨c, hc, ?_, ?_, ?_, ?_⟩
    · simp only [cookieOfMap] at hc
      split at hc
      · have := Option.some.inj hc
        rw [← this]
        split <;> (try split) <;> rfl
      · exact absurd hc (by simp)
    · simp only [cookieOfMap] at hc
      split at hc
      · have := Option.some.inj hc
        rw [← this]
        split <;> (try split) <;> rfl
      · exact absurd hc (by simp)
    · simp only [cookieOfMap] at hc
      split at hc
      · have := Option.some.inj hc
        rw [← this]
        split <;> (try split) <;> rfl
      · exact absurd hc (by simp)
    · rw [addCookieFromMap_eq, hc]
  · intro h
    have hnone : cookieOfMap qt r = none := by
      cases hc : cookieOfMap qt r
      · rfl
      · exact absurd ((cookieOfMap_isSome_iff qt r).mp (by rw [hc]; rfl)) h
    exact ⟨hnone, by rw [addCookieFromMap_eq, hnone]⟩

/-- Witness for C14: the record `{domain: "x.com", name: "a", value: "1"}` is
added as the session cookie `a=1`; the record with the name alone leaves the
jar as it was. -/
theorem addCookieFromMap_required_fields_witness :
    (∃ c : QNetworkCookie, cookieOfMap demoQt recordA1 = some c ∧
        c.domain = (recordA1.get "domain").toString ∧
        c.name = (recordA1.get "name").toString ∧
        c.value = (recordA1.get "value").toString ∧
        jarAtShutdown.addCookieFromMap demoQt recordA1 "" 100 =
          jarAtShutdown.addCookie demoQt c "" 100) ∧
    (cookieOfMap demoQt [("name", QVariant.string "a")] = none ∧
      jarAtShutdown.addCookieFromMap demoQt [("name", QVariant.string "a")] "" 100 =
        jarAtShutdown) :=
  ⟨(addCookieFromMap_required_fields demoQt jarAtShutdown recordA1 "" 100).1
      (by unfold recordHasRequiredFields; decide),
    (addCookieFromMap_required_fields demoQt jarAtShutdown [("name", QVariant.string "a")] ""
      100).2 (by unfold recordHasRequiredFields; decide)⟩

/-! ## C15: from a record to the jar and back -/

/-- The cookie `addCookieFromMap` builds from a record that has the required
fields and no `path`, `httponly`, `secure` or `expires`. -/
theorem cookieOfMap_minimal (qt : QtLib) (r : QVariantMap)
    (hreq : recordHasRequiredFields r)
    (hpath : r.get "path" = QVariant.invalid) (hhttp : r.get "httponly" = QVariant.invalid)
    (hsecure : r.get "secure" = QVariant.invalid)
    (hexpires : r.get "expires" = QVariant.invalid) :
    cookieOfMap qt r = some
      { name := (r.get "name").toString, value := (r.get "value").toString,
        domain := (r.get "domain").toString, path := "/", secure := false, httpOnly := false,
        expirationDate := none } := by
  obtain ⟨⟨hd, hd'⟩, ⟨hn, hn'⟩, hv⟩ := hreq
  have h1 := (isNull_eq_false_iff _).mpr hd
  have h2 := (qIsEmpty_eq_false_iff _).mpr hd'
  have h3 := (isNull_eq_false_iff _).mpr hn
  have h4 := (qIsEmpty_eq_false_iff _).mpr hn'
  have h5 := (isNull_eq_false_iff _).mpr hv
  simp [cookieOfMap, h1, h2, h3, h4, h5, hpath, hhttp, hsecure, hexpires, QVariant.isNull]

/-- C15: on the jar the constructor yields (enabled, empty), for every record
with a non-empty domain, a non-empty name and a value and without `path`,
`httponly`, `secure` and `expires`, `addCookieFromMap(record)` followed by
`cookieToMap(name)` yields the record with that domain, name and value, path
`/`, httponly false, secure false and no `expires` key. -/
theorem addCookieFromMap_cookieToMap_round_trip (qt : QtLib) (storage : Option QDataStream)
    (r : QVariantMap) (now : Int)
    (hreq : recordHasRequiredFields r)
    (hpath : r.get "path" = QVariant.invalid) (hhttp : r.get "httponly" = QVariant.invalid)
    (hsecure : r.get "secure" = QVariant.invalid)
    (hexpires : r.get "expires" = QVariant.invalid) :
    ((CookieJar.new storage).addCookieFromMap qt r "" now).cookieToMap qt
        (r.get "name").toString "" =
      [("domain", QVariant.string (r.get "domain").toString),
       ("name", QVariant.string (r.get "name").toString),
       ("value", QVariant.string (r.get "value").toString),
       ("path", QVariant.string "/"),
       ("httponly", QVariant.bool false), ("secure", QVariant.bool false)] ∧
    (((CookieJar.new storage).addCookieFromMap qt r "" now).cookieToMap qt
        (r.get "name").toString "").hasKey "expires" = false := by
  have hc := cookieOfMap_minimal qt r hreq hpath hhttp hsecure hexpires
  have hdom : qIsEmpty (r.get "domain").toString = false :=
    (qIsEmpty_eq_false_iff _).mpr hreq.1.2
  have hall : ((CookieJar.new storage).addCookieFromMap qt r "" now).allCookies =
      [{ name := (r.get "name").toString, value := (r.get "value").toString,
         domain := (r.get "domain").toString, path := "/", secure := false,
         httpOnly := false, expirationDate := none }] := by
    rw [addCookieFromMap_eq, hc]
    simp only []
    rw [addCookie_allCookies qt _ _ "" now rfl]
    simp [acceptedCookie, QNetworkCookieJar.assignDomain, hdom, CookieJar.new,
      QNetworkCookieJar.insertCookie]
  have hempty : qIsEmpty "" = true := by decide
  have hslash : qIsEmpty "/" = false := by decide
  have hrec : ((CookieJar.new storage).addCookieFromMap qt r "" now).cookieToMap qt
        (r.get "name").toString "" =
      [("domain", QVariant.string (r.get "domain").toString),
       ("name", QVariant.string (r.get "name").toString),
       ("value", QVariant.string (r.get "value").toString),
       ("path", QVariant.string "/"),
       ("httponly", QVariant.bool false), ("secure", QVariant.bool false)] := by
    simp [CookieJar.cookieToMap, CookieJar.cookiesToMap, CookieJar.cookies, hempty, hall,
      CookieJar.cookiesToMapLoop, CookieJar.cookiesToMapStep, QVariantMap.set, hslash,
      CookieJar.cookieToMapLoop, QVariantMap.get, QVariant.toString]
  refine ⟨hrec, ?_⟩
  rw [hrec]
  simp [QVariantMap.hasKey]

/-- Witness for C15: the record `{domain: "x.com", name: "a", value: "1"}`. -/
theorem addCookieFromMap_cookieToMap_round_trip_witness :
    ((CookieJar.new none).addCookieFromMap demoQt recordA1 "" 100).cookieToMap demoQt
        (recordA1.get "name").toString "" =
      [("domain", QVariant.string (recordA1.get "domain").toString),
       ("name", QVariant.string (recordA1.get "name").toString),
       ("value", QVariant.string (recordA1.get "value").toString),
       ("path", QVariant.string "/"),
       ("httponly", QVariant.bool false), ("secure", QVariant.bool false)] ∧
    (((CookieJar.new none).addCookieFromMap demoQt recordA1 "" 100).cookieToMap demoQt
        (recordA1.get "name").toString "").hasKey "expires" = false :=
  addCookieFromMap_cookieToMap_round_trip demoQt none recordA1 100
    (by unfold recordHasRequiredFields; decide) (by decide) (by decide) (by decide) (by decide)

/-! ## C16: purging twice -/

/-- C16 (violated by the code): as `purgeExpiredCookies` never stores its
filtered list, a second run sees the same collection and returns the same
value as the first.  On the jar holding an expired cookie, at time 100, the
first run returns true and so does the second, where the claim has false; the
collection is the same after both runs, as claimed. -/
theorem purgeExpiredCookies_second_run_reports_again :
    (jarWithExpired.purgeExpiredCookies 100).2 = true ∧
    ((jarWithExpired.purgeExpiredCookies 100).1.purgeExpiredCookies 100).2 = true ∧
    ((jarWithExpired.purgeExpiredCookies 100).1.purgeExpiredCookies 100).1.allCookies =
      (jarWithExpired.purgeExpiredCookies 100).1.allCookies ∧
    (∀ (jar : CookieJar) (now : Int),
      (jar.purgeExpiredCookies now).1.purgeExpiredCookies now = jar.purgeExpiredCookies now) := by
  refine ⟨by decide, by decide, by decide, ?_⟩
  intro jar now
  rw [purgeExpiredCookies_fst]

/-! ## C17: persisting on mutation -/

/-- After `save`, the backing store of an enabled jar holds the collection in
memory. -/
theorem save_persistedInSync (qt : QtLib) (jar : CookieJar) (now : Int)
    (h : jar.m_enabled = true) : (jar.save qt now).persistedInSync qt := by
  rw [save_of_enabled qt jar now h]
  rfl

/-- When `setCookiesFromUrl` returns true, the backing store holds the new
collection. -/
theorem setCookiesFromUrl_true_persistedInSync (qt : QtLib) (jar : CookieJar)
    (cookieList : List QNetworkCookie) (url : QUrl) (now : Int)
    (hret : (jar.setCookiesFromUrl qt cookieList url now).2 = true) :
    (jar.setCookiesFromUrl qt cookieList url now).1.persistedInSync qt := by
  unfold CookieJar.setCookiesFromUrl CookieJar.isEnabled at hret ⊢
  cases h : jar.m_enabled
  · rw [h] at hret
    simp at hret
  · simp only [if_true]
    rw [h] at hret
    simp only [if_true] at hret
    split
    · exact save_persistedInSync qt _ now h
    · rename_i hfalse
      rw [if_neg hfalse] at hret
      simp at hret

/-- `setCookiesFromUrl` keeps the backing store of an enabled jar in step
with the collection in memory. -/
theorem setCookiesFromUrl_persistedInSync (qt : QtLib) (jar : CookieJar)
    (cookieList : List QNetworkCookie) (url : QUrl) (now : Int)
    (hsync : jar.persistedInSync qt) :
    (jar.setCookiesFromUrl qt cookieList url now).1.persistedInSync qt := by
  cases hret : (jar.setCookiesFromUrl qt cookieList url now).2
  · unfold CookieJar.setCookiesFromUrl CookieJar.isEnabled at hret ⊢
    cases h : jar.m_enabled
    · simpa [h] using hsync
    · rw [h] at hret
      simp only [if_true] at hret ⊢
      split
      · rename_i htrue
        rw [if_pos htrue] at hret
        simp at hret
      · rename_i hfalse
        have hnil : cookieList = [] := by
          simpa [QNetworkCookieJar.setCookiesFromUrl] using hfalse
        subst hnil
        exact hsync
  · exact setCookiesFromUrl_true_persistedInSync qt jar cookieList url now hret

/-- `addCookie` keeps the backing store in step. -/
theorem addCookie_persistedInSync (qt : QtLib) (jar : CookieJar) (c : QNetworkCookie)
    (url : String) (now : Int) (hsync : jar.persistedInSync qt) :
    (jar.addCookie qt c url now).persistedInSync qt := by
  rw [addCookie_eq]
  split
  · exact setCookiesFromUrl_persistedInSync qt jar _ _ now hsync
  · exact hsync

/-- `addCookieFromMap` keeps the backing store in step. -/
theorem addCookieFromMap_persistedInSync (qt : QtLib) (jar : CookieJar) (r : QVariantMap)
    (url : String) (now : Int) (hsync : jar.persistedInSync qt) :
    (jar.addCookieFromMap qt r url now).persistedInSync qt := by
  rw [addCookieFromMap_eq]
  split
  · exact addCookie_persistedInSync qt jar _ url now hsync
  · exact hsync

/-- `addCookies` keeps the backing store in step. -/
theorem addCookies_persistedInSync (qt : QtLib) (jar : CookieJar) (l : List QNetworkCookie)
    (url : String) (now : Int) (hsync : jar.persistedInSync qt) :
    (jar.addCookies qt l url now).persistedInSync qt := by
  induction l with
  | nil => exact hsync
  | cons c l ih =>
    rw [addCookies_cons]
    exact addCookie_persistedInSync qt _ c url now ih

/-- `deleteCookie` keeps the backing store in step. -/
theorem deleteCookie_persistedInSync (qt : QtLib) (jar : CookieJar) (name url : String)
    (now : Int) (hsync : jar.persistedInSync qt) :
    (jar.deleteCookie qt name url now).persistedInSync qt := by
  rcases deleteCookie_cases qt jar name url now with h | h
  · rw [h]; exact hsync
  · rw [h]; exact setCookiesFromUrl_persistedInSync qt jar _ _ now hsync

/-- `deleteCookies` with a url keeps the backing store in step. -/
theorem deleteCookies_with_url_persistedInSync (qt : QtLib) (jar : CookieJar) (url : String)
    (now : Int) (hurl : qIsEmpty url = false) (hsync : jar.persistedInSync qt) :
    (jar.deleteCookies qt url now).persistedInSync qt := by
  unfold CookieJar.deleteCookies
  split
  · simp only [hurl, Bool.false_eq_true, if_false]
    exact setCookiesFromUrl_persistedInSync qt jar _ _ now hsync
  · exact hsync

/-- C17 (violated by the code for `clearCookies` and `deleteCookies` without
url): `clearCookies` empties the collection in memory and does not call
`save`.  On the enabled jar whose backing store holds its one cookie,
`clearCookies()` and `deleteCookies("")` leave the cookie in the backing store
while the collection in memory is empty.  The other mutating operations keep
the backing store equal to the collection in memory, and when
`setCookiesFromUrl` returns true the backing store holds the new collection. -/
theorem clearCookies_leaves_store_stale :
    jarInSync.persistedInSync demoQt ∧
    jarInSync.clearCookies.allCookies = [] ∧
    jarInSync.clearCookies.storageValue demoQt = [sessionCookie] ∧
    ¬ jarInSync.clearCookies.persistedInSync demoQt ∧
    (jarInSync.deleteCookies demoQt "" 100).allCookies = [] ∧
    (jarInSync.deleteCookies demoQt "" 100).storageValue demoQt = [sessionCookie] ∧
    ¬ (jarInSync.deleteCookies demoQt "" 100).persistedInSync demoQt ∧
    (∀ (qt : QtLib) (jar : CookieJar) (now : Int), jar.persistedInSync qt →
      (∀ (l : List QNetworkCookie) (url : QUrl),
        (jar.setCookiesFromUrl qt l url now).1.persistedInSync qt) ∧
      (∀ (c : QNetworkCookie) (url : String), (jar.addCookie qt c url now).persistedInSync qt) ∧
      (∀ (r : QVariantMap) (url : String),
        (jar.addCookieFromMap qt r url now).persistedInSync qt) ∧
      (∀ (l : List QNetworkCookie) (url : String),
        (jar.addCookies qt l url now).persistedInSync qt) ∧
      (∀ (name url : String), (jar.deleteCookie qt name url now).persistedInSync qt) ∧
      (∀ url : String, qIsEmpty url = false →
        (jar.deleteCookies qt url now).persistedInSync qt)) ∧
    (∀ (qt : QtLib) (jar : CookieJar) (l : List QNetworkCookie) (url : QUrl) (now : Int),
      (jar.setCookiesFromUrl qt l url now).2 = true →
      (jar.setCookiesFromUrl qt l url now).1.persistedInSync qt) := by
  refine ⟨rfl, by decide, by decide, ?_, by decide, by decide, ?_, ?_,
    setCookiesFromUrl_true_persistedInSync⟩
  · unfold CookieJar.persistedInSync; decide
  · unfold CookieJar.persistedInSync; decide
  · intro qt jar now hsync
    exact ⟨fun l url => setCookiesFromUrl_persistedInSync qt jar l url now hsync,
      fun c url => addCookie_persistedInSync qt jar c url now hsync,
      fun r url => addCookieFromMap_persistedInSync qt jar r url now hsync,
      fun l url => addCookies_persistedInSync qt jar l url now hsync,
      fun name url => deleteCookie_persistedInSync qt jar name url now hsync,
      fun url hurl => deleteCookies_with_url_persistedInSync qt jar url now hurl hsync⟩

/-! ## C18: domain matching -/

/-- A cookie `cookiesForUrl` returns is stored and passes the three rules of
the matcher. -/
theorem mem_cookiesForUrl (jar : CookieJar) (url : QUrl) (c : QNetworkCookie)
    (h : c ∈ jar.cookiesForUrl url) :
    c ∈ jar.allCookies ∧ QNetworkCookieJar.domainMatch c url = true ∧
      QNetworkCookieJar.pathMatch c url = true ∧ QNetworkCookieJar.secureMatch c url = true := by
  unfold CookieJar.cookiesForUrl at h
  split at h
  · unfold QNetworkCookieJar.cookiesForUrl at h
    obtain ⟨hmem, hcond⟩ := List.mem_filter.mp h
    simp only [Bool.and_eq_true] at hcond
    exact ⟨hmem, hcond.1.1, hcond.1.2, hcond.2⟩
  · simp at h

/-- The domain rule, as a proposition. -/
theorem domainMatch_iff (c : QNetworkCookie) (url : QUrl) :
    QNetworkCookieJar.domainMatch c url = true ↔
      c.domain = url.host ∨ c.domain.data <:+ ('.' :: url.host.data) := by
  simp [QNetworkCookieJar.domainMatch]

/-- C18: on an enabled jar, a stored non-secure cookie with domain
`.example.com` and path `/` is returned by `cookiesForUrl` for
`http://example.com/` and for `http://a.example.com/` and is not returned for
`http://notexample.com/`; and every cookie `cookiesForUrl(url)` returns has a
domain that equals the host of the url or is a suffix of the host preceded by
a dot. -/
theorem cookiesForUrl_domain_rule (jar : CookieJar) (c : QNetworkCookie) (url : QUrl)
    (henabled : jar.m_enabled = true) (hmem : c ∈ jar.allCookies)
    (hdomain : c.domain = ".example.com") (hpath : c.path = "/") (hsecure : c.secure = false) :
    c ∈ jar.cookiesForUrl (QUrl.ofString "http://example.com/") ∧
    c ∈ jar.cookiesForUrl (QUrl.ofString "http://a.example.com/") ∧
    c ∉ jar.cookiesForUrl (QUrl.ofString "http://notexample.com/") ∧
    (∀ d ∈ jar.cookiesForUrl url,
      d.domain = url.host ∨ d.domain.data <:+ ('.' :: url.host.data)) := by
  have h1 : QUrl.ofString "http://example.com/" =
      { scheme := "http", host := "example.com", path := "/" } := by decide
  have h2 : QUrl.ofString "http://a.example.com/" =
      { scheme := "http", host := "a.example.com", path := "/" } := by decide
  have h3 : QUrl.ofString "http://notexample.com/" =
      { scheme := "http", host := "notexample.com", path := "/" } := by decide
  refine ⟨?_, ?_, ?_, ?_⟩
  · rw [h1]
    simp only [CookieJar.cookiesForUrl, CookieJar.isEnabled, henabled, if_true,
      QNetworkCookieJar.cookiesForUrl, List.mem_filter]
    refine ⟨hmem, ?_⟩
    simp only [QNetworkCookieJar.domainMatch, QNetworkCookieJar.pathMatch,
      QNetworkCookieJar.secureMatch, hdomain, hpath, hsecure]
    decide
  · rw [h2]
    simp only [CookieJar.cookiesForUrl, CookieJar.isEnabled, henabled, if_true,
      QNetworkCookieJar.cookiesForUrl, List.mem_filter]
    refine ⟨hmem, ?_⟩
    simp only [QNetworkCookieJar.domainMatch, QNetworkCookieJar.pathMatch,
      QNetworkCookieJar.secureMatch, hdomain, hpath, hsecure]
    decide
  · intro hin
    have hd := (mem_cookiesForUrl jar _ c hin).2.1
    rw [h3] at hd
    simp only [QNetworkCookieJar.domainMatch, hdomain] at hd
    exact absurd hd (by decide)
  · intro d hd
    exact (domainMatch_iff d url).mp (mem_cookiesForUrl jar url d hd).2.1

/-- Witness for C18: the jar holding the cookie for `.example.com`. -/
theorem cookiesForUrl_domain_rule_witness :
    exampleCookie ∈ jarExample.cookiesForUrl (QUrl.ofString "http://example.com/") ∧
    exampleCookie ∈ jarExample.cookiesForUrl (QUrl.ofString "http://a.example.com/") ∧
    exampleCookie ∉ jarExample.cookiesForUrl (QUrl.ofString "http://notexample.com/") ∧
    (∀ d ∈ jarExample.cookiesForUrl (QUrl.ofString "http://a.example.com/"),
      d.domain = (QUrl.ofString "http://a.example.com/").host ∨
      d.domain.data <:+ ('.' :: (QUrl.ofString "http://a.example.com/").host.data)) :=
  cookiesForUrl_domain_rule jarExample exampleCookie (QUrl.ofString "http://a.example.com/")
    rfl (by decide) rfl rfl rfl

/-! ## C19: the value `purgeExpiredCookies` returns -/

/-- The purge condition, spelled out: the cookie has an expiration date and
that date is before `now`. -/
theorem isExpiredAt_iff (now : Int) (c : QNetworkCookie) :
    c.isExpiredAt now = true ↔
      c.isSessionCookie = false ∧ ∃ t : Int, c.expirationDate = some t ∧ t < now := by
  unfold QNetworkCookie.isExpiredAt QNetworkCookie.isSessionCookie qDateTimeLt
  cases c.expirationDate <;> simp

/-- C19: `purgeExpiredCookies` returns true exactly when some stored cookie
is not a session cookie and has an expiration date before `now`; so it returns
false on the empty collection and on a collection of session cookies.  On an
enabled jar `load` therefore saves exactly when the loaded collection holds
such a cookie; on a disabled jar it does nothing. -/
theorem purgeExpiredCookies_returns_iff (qt : QtLib) (jar : CookieJar) (now : Int) :
    ((jar.purgeExpiredCookies now).2 = true ↔
      ∃ c ∈ jar.allCookies,
        c.isSessionCookie = false ∧ ∃ t : Int, c.expirationDate = some t ∧ t < now) ∧
    (jar.allCookies = [] → (jar.purgeExpiredCookies now).2 = false) ∧
    ((∀ c ∈ jar.allCookies, c.isSessionCookie = true) →
      (jar.purgeExpiredCookies now).2 = false) ∧
    jar.load qt now =
      (if jar.m_enabled then
        if (jar.storageValue qt).any (QNetworkCookie.isExpiredAt now) then
          (jar.setAllCookies (jar.storageValue qt)).save qt now
        else jar.setAllCookies (jar.storageValue qt)
      else jar) := by
  have hiff : (jar.purgeExpiredCookies now).2 = true ↔
      ∃ c ∈ jar.allCookies,
        c.isSessionCookie = false ∧ ∃ t : Int, c.expirationDate = some t ∧ t < now := by
    rw [purgeExpiredCookies_snd, List.any_eq_true]
    constructor
    · rintro ⟨c, hc, hexp⟩
      exact ⟨c, hc, (isExpiredAt_iff now c).mp hexp⟩
    · rintro ⟨c, hc, hexp⟩
      exact ⟨c, hc, (isExpiredAt_iff now c).mpr hexp⟩
  refine ⟨hiff, ?_, ?_, ?_⟩
  · intro hnil
    rw [purgeExpiredCookies_snd, hnil]
    rfl
  · intro hall
    cases hret : (jar.purgeExpiredCookies now).2
    · rfl
    · obtain ⟨c, hc, hsession, _⟩ := hiff.mp hret
      rw [hall c hc] at hsession
      exact absurd hsession (by simp)
  · simp only [CookieJar.load, CookieJar.isEnabled, purgeExpiredCookies_snd,
      purgeExpiredCookies_fst]
    rfl

/-! ## C20: the url `addCookie` builds -/

end PhantomJS
